import Mathlib

set_option autoImplicit false
set_option maxRecDepth 100000

/-!  Shallow embedding of the QIAStechnology/converter product synchronizer
(`src/csv_to_mx_business.py`, with the `sync_xml.py` normalizer variant).

Text is modelled as Lean `String`/`List Char` over the ASCII alphabet the
engine actually reads; `xml.etree` field text of `None` is identified with
`""` (the code coalesces it with `or ""` / truthiness everywhere it reads).
Python floats are modelled exactly: a decimal string is parsed to an exact
rational and correctly rounded to IEEE-754 binary64, represented as an
integer fraction so that every definition evaluates inside the kernel.
Timestamps (`datetime.now()`) are an injected string parameter.  -/

namespace Converter

/-- Whitespace removed by Python `str.strip()` (the ASCII subset). -/
def isPySpace (c : Char) : Bool :=
  c = ' ' || c = '\t' || c = '\n' || c = '\r' || c = '\x0b' || c = '\x0c'

/-- Strip trailing whitespace. -/
def stripEnd (l : List Char) : List Char := (l.reverse.dropWhile isPySpace).reverse

/-- Python `str.strip()`. -/
def stripL (l : List Char) : List Char := stripEnd (l.dropWhile isPySpace)

/-- Python `str.strip()` on `String`. -/
def pyStrip (s : String) : String := ⟨stripL s.data⟩

/-- ASCII decimal digit. -/
def isDigitC (c : Char) : Bool := '0' ≤ c && c ≤ '9'

/-- Value of a digit character. -/
def digitVal (c : Char) : Nat := c.toNat - '0'.toNat

/-- Value of a most-significant-first digit string. -/
def digitsToNat (l : List Char) : Nat := l.foldl (fun a c => 10 * a + digitVal c) 0

/-- Digit run continuation for Python numeric literals: single underscores
are allowed between digits; returns the digits with underscores removed. -/
def udAux : List Char → Option (List Char)
  | [] => some []
  | c :: rest =>
    if c = '_' then
      match rest with
      | c2 :: r2 => if isDigitC c2 then (udAux r2).map (c2 :: ·) else none
      | [] => none
    else if isDigitC c then (udAux rest).map (c :: ·) else none

/-- A nonempty Python digit run (digits, with `_` separators allowed
between digits), as accepted by `int()` / `float()` / `Decimal()`. -/
def underDigits (l : List Char) : Option (List Char) :=
  match l with
  | c :: rest => if isDigitC c then (udAux rest).map (c :: ·) else none
  | [] => none

/-- Signed digit run: an optional `-` / `+` before a Python digit run. -/
def signedDigits (l : List Char) : Option Int :=
  match l with
  | [] => none
  | c :: r =>
    if c = '-' then (underDigits r).map (fun ds => -(digitsToNat ds : Int))
    else if c = '+' then (underDigits r).map (fun ds => (digitsToNat ds : Int))
    else (underDigits (c :: r)).map (fun ds => (digitsToNat ds : Int))

/-- Python `int(text)` (sign, ASCII digit run); `none` models `ValueError`. -/
def pyIntParse (s : String) : Option Int := signedDigits (stripL s.data)

/-- Digits of `n`, most significant first (`f` is fuel, `f ≥ n` suffices). -/
def natDigitsAux : Nat → Nat → List Char
  | 0, _ => []
  | f + 1, n =>
    if n = 0 then [] else natDigitsAux f (n / 10) ++ [Char.ofNat ('0'.toNat + n % 10)]

/-- Decimal digit string of a `Nat`, as Python prints it. -/
def natRepr (n : Nat) : List Char := if n = 0 then ['0'] else natDigitsAux n n

/-- Python `str()` of an int. -/
def intRepr (i : Int) : List Char :=
  if i < 0 then '-' :: natRepr i.natAbs else natRepr i.natAbs

/-- Python `str()` of an int, as a `String`. -/
def pyStr (i : Int) : String := ⟨intRepr i⟩

/-- Number of decimal digits of `n`. -/
def digitCount (n : Nat) : Nat := (natRepr n).length

/-- An exact fraction with explicit denominator.  All engine arithmetic is
kept in `Int`/`Nat` (no normalization) so concrete runs reduce in the
kernel; `val` maps into `ℚ` for reasoning only. -/
structure Frac where
  num : Int
  den : Nat
deriving DecidableEq

/-- Rational value of a fraction (proof-side view). -/
def Frac.val (x : Frac) : ℚ := (x.num : ℚ) / (x.den : ℚ)

/-- Comparison by cross multiplication (exact for positive denominators). -/
def Frac.le (x y : Frac) : Bool := x.num * (y.den : Int) ≤ y.num * (x.den : Int)

/-- A Python float value: finite double, signed infinity, or nan. -/
inductive PyFloat where
  | finite (v : Frac)
  | infty (neg : Bool)
  | nan
deriving DecidableEq

/-- Fueled base-2 logarithm (`f ≥ log₂ n` steps suffice; we pass `n`). -/
def natLog2Aux : Nat → Nat → Nat
  | 0, _ => 0
  | f + 1, n => if n ≤ 1 then 0 else natLog2Aux f (n / 2) + 1

/-- `⌊log₂ n⌋` for `n ≥ 1` (0 at 0), computed by repeated halving. -/
def natLog2 (n : Nat) : Nat := natLog2Aux n n

/-- `2 ^ z ≤ n / d`, decided in `Nat`. -/
def pow2LeFrac (n d : Nat) (z : Int) : Bool :=
  if 0 ≤ z then 2 ^ z.toNat * d ≤ n else d ≤ n * 2 ^ (-z).toNat

/-- `n / d < 2 ^ z`, decided in `Nat`. -/
def fracLtPow2 (n d : Nat) (z : Int) : Bool :=
  if 0 ≤ z then n < 2 ^ z.toNat * d else n * 2 ^ (-z).toNat < d

/-- `2 ^ z ≤ n / d < 2 ^ (z + 1)`. -/
def zpred (n d : Nat) (z : Int) : Bool := pow2LeFrac n d z && fracLtPow2 n d (z + 1)

/-- Round half to even of `num / den` (`den` positive). -/
def rhe (num den : Nat) : Nat :=
  let q := num / den
  let r := num % den
  if 2 * r < den then q
  else if den < 2 * r then q + 1
  else if q % 2 = 0 then q else q + 1

/-- Candidate exponents around `natLog2 n - natLog2 d` for the bracket
`2 ^ z ≤ n/d < 2 ^ (z+1)`. -/
def zCandidates (n d : Nat) : List Int :=
  [(natLog2 n : Int) - (natLog2 d : Int) - 2, (natLog2 n : Int) - (natLog2 d : Int) - 1,
   (natLog2 n : Int) - (natLog2 d : Int), (natLog2 n : Int) - (natLog2 d : Int) + 1,
   (natLog2 n : Int) - (natLog2 d : Int) + 2]

/-- Quantum exponent of the double nearest `n / d`: 52 below the verified
bracket exponent, clamped at the subnormal quantum `2 ^ (-1074)`. -/
def rdpExp (n d : Nat) : Int :=
  match (zCandidates n d).find? (zpred n d) with
  | some z => max (z - 52) (-1074)
  | none => -1074

/-- Round `n / d` half-to-even to an integer multiple of `2 ^ e`, with
overflow to infinity at `2 ^ 1024`. -/
def rdpCore (n d : Nat) (e : Int) : PyFloat :=
  if 0 ≤ e then
    if 2 ^ 1024 ≤ rhe n (d * 2 ^ e.toNat) * 2 ^ e.toNat then .infty false
    else .finite ⟨(rhe n (d * 2 ^ e.toNat) * 2 ^ e.toNat : Nat), 1⟩
  else
    if 2 ^ (1024 + (-e).toNat) ≤ rhe (n * 2 ^ (-e).toNat) d then .infty false
    else .finite ⟨(rhe (n * 2 ^ (-e).toNat) d : Int), 2 ^ (-e).toNat⟩

/-- IEEE-754 binary64 round-to-nearest-even of the positive rational
`n / d`: mantissa exponent from a verified bracket `2 ^ z ≤ n/d < 2 ^ (z+1)`,
clamped at the subnormal quantum `2 ^ (-1074)`, with overflow to infinity at
`2 ^ 1024`.  Models CPython's correctly rounded string-to-float conversion. -/
def roundDoublePos (n d : Nat) : PyFloat := rdpCore n d (rdpExp n d)

/-- Token of Python `float(str)`: signed decimal significand with scale and
power-of-ten exponent, or a signed infinity / nan word. -/
inductive FloatTok where
  | num (neg : Bool) (m : Nat) (scale : Nat) (exp : Int)
  | infty (neg : Bool)
  | nan
deriving DecidableEq

/-- Split at the first character satisfying `p` (that character dropped). -/
def splitOnce (p : Char → Bool) : List Char → Option (List Char × List Char)
  | [] => none
  | c :: rest =>
    if p c then some ([], rest)
    else (splitOnce p rest).map (fun pr => (c :: pr.1, pr.2))

/-- Case-insensitive comparison against a lowercase word. -/
def lowerEq (l w : List Char) : Bool := l.map Char.toLower == w

/-- Significand of a float literal: `digits`, `digits.`, `digits.digits`
or `.digits`; yields the integer of all digits and the fractional length. -/
def parseMantissa (l : List Char) : Option (Nat × Nat) :=
  match splitOnce (· = '.') l with
  | none => (underDigits l).map (fun ds => (digitsToNat ds, 0))
  | some (ip, fp) =>
    if ip = [] then
      if fp = [] then none
      else (underDigits fp).map (fun ds => (digitsToNat ds, ds.length))
    else if fp = [] then (underDigits ip).map (fun ds => (digitsToNat ds, 0))
    else
      match underDigits ip, underDigits fp with
      | some ds1, some ds2 =>
        some (digitsToNat ds1 * 10 ^ ds2.length + digitsToNat ds2, ds2.length)
      | _, _ => none

/-- Signed exponent digits after `e`/`E`. -/
def parseExp (l : List Char) : Option Int := signedDigits l

/-- Python `float(str)` lexing: strip, optional sign, then `inf` /
`infinity` / `nan` (case-insensitive) or significand with optional
exponent; `none` models `ValueError`. -/
def parseFloat (s : String) : Option FloatTok :=
  let l := stripL s.data
  let sb : Bool × List Char := match l with
    | [] => (false, [])
    | c :: r =>
      if c = '-' then (true, r) else if c = '+' then (false, r) else (false, c :: r)
  let neg := sb.1
  let body := sb.2
  if lowerEq body ['i', 'n', 'f'] || lowerEq body ['i', 'n', 'f', 'i', 'n', 'i', 't', 'y'] then
    some (.infty neg)
  else if lowerEq body ['n', 'a', 'n'] then some .nan
  else
    match splitOnce (fun c => c = 'e' || c = 'E') body with
    | none => (parseMantissa body).map (fun ms => .num neg ms.1 ms.2 0)
    | some (mant, ex) =>
      match parseMantissa mant, parseExp ex with
      | some ms, some e => some (.num neg ms.1 ms.2 e)
      | _, _ => none

/-- Double value of a parsed token: `± m · 10 ^ (exp − scale)` correctly
rounded.  Magnitudes past the double range short-circuit (sound since
`10 ^ 330 > 2 ^ 1024` and `10 ^ (−330) < 2 ^ (−1075)`); the sign of a zero
result is dropped (only comparisons and truncation read the value). -/
def floatOfTok : FloatTok → PyFloat
  | .infty neg => .infty neg
  | .nan => .nan
  | .num neg m scale exp =>
    if m = 0 then .finite ⟨0, 1⟩
    else
      let mag : Int := (digitCount m : Int) + exp - (scale : Int)
      if 330 < mag then .infty neg
      else if mag < -330 then .finite ⟨0, 1⟩
      else
        let p : Int := exp - (scale : Int)
        let nd : Nat × Nat := if 0 ≤ p then (m * 10 ^ p.toNat, 1) else (m, 10 ^ (-p).toNat)
        match roundDoublePos nd.1 nd.2 with
        | .finite v => .finite (if neg then ⟨-v.num, v.den⟩ else v)
        | .infty _ => .infty neg
        | .nan => .nan

/-- Python `float(s)`: `none` is a `ValueError`. -/
def pyFloat (s : String) : Option PyFloat := (parseFloat s).map floatOfTok

/-- Python `int(float(s))`: truncation toward zero; `none` when the parse
raises or the float is nan / infinite. -/
def pyFloatToInt (s : String) : Option Int :=
  match pyFloat s with
  | some (.finite v) =>
    some (if 0 ≤ v.num then ((v.num.toNat / v.den : Nat) : Int)
          else -((v.num.natAbs / v.den : Nat) : Int))
  | _ => none

namespace DataValidator

/-- Characters kept by the price-cleaning regex `[^\d.,-]`. -/
def keepPriceChar (c : Char) : Bool := isDigitC c || c = '.' || c = ',' || c = '-'

/-- Exact value of a parsed `Decimal`: `(−1) ^ neg · m / 10 ^ scale`. -/
structure DecVal where
  neg : Bool
  m : Nat
  scale : Nat
deriving DecidableEq

/-- `decimal.Decimal(text)` on the cleaned price alphabet (digits `.` `,`
`-`): optional leading minus, digits with at most one point, at least one
digit; anything else (commas, stray minus, lone point) raises. -/
def parseDec (l : List Char) : Option DecVal :=
  let sb : Bool × List Char := match l with
    | [] => (false, [])
    | c :: r => if c = '-' then (true, r) else (false, c :: r)
  let neg := sb.1
  let body := sb.2
  match splitOnce (· = '.') body with
  | none =>
    if body ≠ [] && body.all isDigitC then some ⟨neg, digitsToNat body, 0⟩ else none
  | some (ip, fp) =>
    if (ip ++ fp) ≠ [] && (ip ++ fp).all isDigitC then
      some ⟨neg, digitsToNat (ip ++ fp), fp.length⟩
    else none

/-- Two digits, zero padded. -/
def pad2 (n : Nat) : List Char := if n < 10 then '0' :: natRepr n else natRepr n

/-- Python `f"{d:.2f}"` on a `Decimal`: quantize to two decimals with
round-half-even, then fixed-point print (negative sign kept, as Python
prints `-0.00` for a negative zero `Decimal`). -/
def formatDec2 (d : DecVal) : List Char :=
  let k := if d.scale ≤ 2 then d.m * 10 ^ (2 - d.scale) else rhe d.m (10 ^ (d.scale - 2))
  (if d.neg then ['-'] else []) ++ natRepr (k / 100) ++ '.' :: pad2 (k % 100)

/-- `cleaned_value = re.sub(r"[^\d.,-]", "", value.strip())`. -/
def cleanedPrice (l : List Char) : List Char := (stripL l).filter keepPriceChar

/-- The comma-to-dot pass: applied only when a comma is present and no
dot is. -/
def commaSwapped (l : List Char) : List Char :=
  if l.contains ',' && !l.contains '.' then l.map (fun c => if c = ',' then '.' else c) else l

/-- `DataValidator.normalize_price`. -/
def normalize_price (value : String) : String :=
  if stripL value.data = [] then "0.00"
  else
    match parseDec (commaSwapped (cleanedPrice value.data)) with
    | some d => ⟨formatDec2 d⟩
    | none => "0.00"

/-- `DataValidator.normalize_ean`. -/
def normalize_ean (value : String) : String :=
  if stripL value.data = [] then "0"
  else
    match pyFloatToInt value with
    | some n => ⟨intRepr n⟩
    | none =>
      if value.data.filter isDigitC = [] then "0" else ⟨value.data.filter isDigitC⟩

/-- `DataValidator.safe_int_conversion`. -/
def safe_int_conversion (value : String) (default : Int) : Int :=
  if stripL value.data = [] then default
  else (pyIntParse value).getD default

/-- Double value of the Python literal `999999.99` (`Config.MAX_PRICE`). -/
def MAX_PRICE_D : Frac :=
  match roundDoublePos 99999999 100 with
  | .finite v => v
  | _ => ⟨0, 1⟩

/-- `DataValidator.validate_price_range`:
`Config.MIN_PRICE <= float(price) <= Config.MAX_PRICE` on the literals'
double values; a parse error or a non-finite float yields `False`. -/
def validate_price_range (price : String) : Bool :=
  match pyFloat price with
  | some (.finite v) => Frac.le ⟨0, 1⟩ v && Frac.le v MAX_PRICE_D
  | _ => false

end DataValidator

namespace syncXml

/-- `normalize_ean` of `sync_xml.py`: the same float-then-truncate path,
but the fallback is the bare digit filter with no `"0"` substitute, and
only the fully empty string is special-cased. -/
def normalize_ean (value : String) : String :=
  if value.data = [] then "0"
  else
    match pyFloatToInt value with
    | some n => ⟨intRepr n⟩
    | none => ⟨value.data.filter isDigitC⟩

end syncXml

/-- A product row as the engine carries it between phases (the dict built
by `CSVLoader._process_row` / `XMLManager._extract_products`). -/
structure Product where
  plu : Int
  name : String
  ean : Int
  price : String
  deptId : Int
  textArea1 : String
  productType : Int
  pmm : Int
  barcodeFmt : Int
  printFmt : Int
  ts : String
deriving DecidableEq

namespace CSVLoader

/-- `row.get(col, dflt)` on a `csv.DictReader` row (unique keys). -/
def rowGet (row : List (String × String)) (col dflt : String) : String :=
  ((row.find? (fun e => e.1 == col)).map (·.2)).getD dflt

/-- `CSVLoader._process_row`: validation order is price range, then PLU,
then Product Type, then the multiplier clamp; `none` is a skipped row. -/
def processRow (row : List (String × String)) (ts : String) : Option Product :=
  let rawPrice := pyStrip (rowGet row "Retail Price (1st)" "")
  let normalizedPrice := DataValidator.normalize_price rawPrice
  if !DataValidator.validate_price_range normalizedPrice then none
  else
    let plu := DataValidator.safe_int_conversion (rowGet row "PLU Number" "") 0
    if plu = 0 then none
    else
      let productType := DataValidator.safe_int_conversion (rowGet row "Product Type" "") 0
      if !([0, 1, 2, 4, 6, 9, 99].contains productType) then none
      else
        let pmm0 := DataValidator.safe_int_conversion (rowGet row "Price Modifier Multiplier" "1") 1
        let pmm := if pmm0 < 1 || 100 < pmm0 then 1 else pmm0
        some
          { plu := plu
            name := pyStrip (rowGet row "Display Text" "")
            ean := DataValidator.safe_int_conversion
              (DataValidator.normalize_ean (rowGet row "EAN Code" "")) 0
            price := normalizedPrice
            deptId := DataValidator.safe_int_conversion (rowGet row "Department ID" "") 0
            textArea1 := pyStrip (rowGet row "Text Area (1)" "")
            productType := productType
            pmm := pmm
            barcodeFmt := DataValidator.safe_int_conversion (rowGet row "Barcode Format ID" "0") 0
            printFmt := DataValidator.safe_int_conversion (rowGet row "Print Format ID" "0") 0
            ts := ts }

end CSVLoader

/-! ### XML document model

`<record>` is a bag of `(column_name, text)` fields in document order; a
`None` text is identified with `""`.  Python's per-record dict
`{f.attrib["column_name"]: f}` maps a duplicated column name to its last
field element, so lookups and in-place text mutation act on the last
occurrence. -/

/-- An XML `<record>`. -/
structure Record where
  fields : List (String × String)
deriving DecidableEq

/-- An XML `<table name=...>`. -/
structure Table where
  name : String
  records : List Record
deriving DecidableEq

/-- The XML document: its tables in document order. -/
structure XMLTree where
  tables : List Table
deriving DecidableEq

/-- Text of the last field with the given column name (Python's field
dict keeps the last duplicate). -/
def lookupLast (fs : List (String × String)) (col : String) : Option String :=
  (fs.reverse.find? (fun f => f.1 == col)).map (·.2)

/-- Replace the text of the first matching field (position kept). -/
def setFirstF : List (String × String) → String → String → List (String × String)
  | [], _, _ => []
  | f :: rest, col, v => if f.1 = col then (col, v) :: rest else f :: setFirstF rest col v

/-- Set the text of the last field with the given column name (the element
Python's field dict points to); identity when the column is absent. -/
def setLast (fs : List (String × String)) (col v : String) : List (String × String) :=
  (setFirstF fs.reverse col v).reverse

/-- All records of tables with the given name, in document order
(`findall(".//table[@name=N]/record")`). -/
def allRecs (tname : String) (tr : XMLTree) : List Record :=
  (tr.tables.filter (fun t => t.name == tname)).flatMap (·.records)

/-- Records of the `ITEM` tables. -/
def itemRecords (tr : XMLTree) : List Record := allRecs "ITEM" tr

/-- Records of the `ITEM in Band` tables. -/
def bandRecords (tr : XMLTree) : List Record := allRecs "ITEM in Band" tr

/-- Replace the first record satisfying `pred` by `f` of it; the flag says
whether a record matched. -/
def updFirst (pred : Record → Bool) (f : Record → Record) : List Record → List Record × Bool
  | [] => ([], false)
  | r :: rs =>
    if pred r then (f r :: rs, true)
    else (r :: (updFirst pred f rs).1, (updFirst pred f rs).2)

/-- Apply `updFirst` inside the tables named `tname`, stopping at the
first match in document order. -/
def tablesUpdFirst (tname : String) (pred : Record → Bool) (f : Record → Record) :
    List Table → List Table × Bool
  | [] => ([], false)
  | t :: ts =>
    if t.name = tname then
      if (updFirst pred f t.records).2 then
        ({ t with records := (updFirst pred f t.records).1 } :: ts, true)
      else (t :: (tablesUpdFirst tname pred f ts).1, (tablesUpdFirst tname pred f ts).2)
    else (t :: (tablesUpdFirst tname pred f ts).1, (tablesUpdFirst tname pred f ts).2)

/-- Append a record to the first table with the given name
(`root.find(".//table[@name=N]")`); `none` when no such table exists. -/
def tablesAppend (tname : String) (r : Record) : List Table → Option (List Table)
  | [] => none
  | t :: ts =>
    if t.name = tname then some ({ t with records := t.records ++ [r] } :: ts)
    else (tablesAppend tname r ts).map (t :: ·)

/-- Whether some table is named `ITEM`. -/
def hasItemTable (tr : XMLTree) : Bool := tr.tables.any (fun t => t.name == "ITEM")

namespace ProductSynchronizer

/-- `_match_product_record`: both key fields present with nonempty text
whose strip equals `str(plu)` / `str(dept_id)`. -/
def matchesKey (plu deptId : Int) (r : Record) : Bool :=
  match lookupLast r.fields "PLU Number", lookupLast r.fields "Department ID" with
  | some pt, some dt =>
    !(pt == "") && !(dt == "") &&
      stripL pt.data == intRepr plu && stripL dt.data == intRepr deptId
  | _, _ => false

/-- The `update_mappings` list: XML column paired with the new text
`str(csv_prod[key])`. -/
def updateMappings (p : Product) : List (String × String) :=
  [("Display Text", p.name),
   ("EAN Code", pyStr p.ean),
   ("Retail Price (1st)", p.price),
   ("Text Area (1)", p.textArea1),
   ("Product Type", pyStr p.productType),
   ("Price Modifier Multiplier", pyStr p.pmm),
   ("Barcode Format ID", pyStr p.barcodeFmt),
   ("Print Format ID", pyStr p.printFmt),
   ("Display Button Text", p.name)]

/-- The comparison loop of `_update_existing_product`: for each mapped
column present on the record, overwrite when the text differs; returns
the fields with the `updated` and `price_updated` flags. -/
def applyMappingsAux : List (String × String) → List (String × String) → Bool → Bool →
    List (String × String) × Bool × Bool
  | [], fs, u, pu => (fs, u, pu)
  | (col, v) :: rest, fs, u, pu =>
    match lookupLast fs col with
    | none => applyMappingsAux rest fs u pu
    | some old =>
      if old = v then applyMappingsAux rest fs u pu
      else applyMappingsAux rest (setLast fs col v) true (pu || col == "Retail Price (1st)")

/-- All nine mapped comparisons applied to a record's fields. -/
def applyMappings (p : Product) (fs : List (String × String)) :
    List (String × String) × Bool × Bool :=
  applyMappingsAux (updateMappings p) fs false false

/-- The `_TS` / `_CF` stamping after the comparison loop: `_TS` is written
when something changed or created when missing; `_CF` is set to `"1"`
only when something changed. -/
def tsCfStamp (fs : List (String × String)) (updated : Bool) (ts : String) :
    List (String × String) :=
  let fs1 :=
    if updated || (lookupLast fs "_TS").isNone then
      match lookupLast fs "_TS" with
      | none => fs ++ [("_TS", ts)]
      | some _ => setLast fs "_TS" ts
    else fs
  if updated then
    match lookupLast fs1 "_CF" with
    | none => fs1 ++ [("_CF", "1")]
    | some _ => setLast fs1 "_CF" "1"
  else fs1

/-- The record transformation of `_update_existing_product` on the matched
record, with the `updated` / `price_updated` flags. -/
def recUpdate (p : Product) (ts : String) (r : Record) : Record × Bool × Bool :=
  let a := applyMappings p r.fields
  (⟨tsCfStamp a.1 a.2.1 ts⟩, a.2.1, a.2.2)

/-- The write-or-create step `if col in fields: overwrite else append`. -/
def writeField (fs : List (String × String)) (col v : String) : List (String × String) :=
  match lookupLast fs col with
  | some _ => setLast fs col v
  | none => fs ++ [(col, v)]

/-- The price step of `_update_item_in_band`: overwrite the price when the
field is present and its text (empty read as `"0"`) differs. -/
def bandPriceStep (newPrice : String) (fs : List (String × String)) :
    List (String × String) :=
  match lookupLast fs "Retail Price (1st)" with
  | some t =>
    if (if t = "" then "0" else t) ≠ newPrice
    then setLast fs "Retail Price (1st)" newPrice else fs
  | none => fs

/-- `_update_item_in_band` on the matched band record: the price step, then
`_TS` and `_CF` stamped unconditionally, created when missing. -/
def bandStamp (newPrice ts : String) (r : Record) : Record :=
  ⟨writeField (writeField (bandPriceStep newPrice r.fields) "_TS" ts) "_CF" "1"⟩

/-- `_update_item_in_band`: mutate the first matching `ITEM in Band`
record and stop; only a warning when none matches. -/
def updateItemInBand (plu deptId : Int) (newPrice ts : String) (tr : XMLTree) : XMLTree :=
  ⟨(tablesUpdFirst "ITEM in Band" (matchesKey plu deptId) (bandStamp newPrice ts) tr.tables).1⟩

/-- `_update_existing_product`: find the first matching `ITEM` record,
apply the mapped-column comparison and the `_TS`/`_CF` stamping, touch the
band table when the price changed; the flag is the `updated` statistic. -/
def updateExistingProduct (plu deptId : Int) (p : Product) (ts : String) (tr : XMLTree) :
    XMLTree × Bool :=
  match (itemRecords tr).find? (matchesKey plu deptId) with
  | none => (tr, false)
  | some r =>
    let a := recUpdate p ts r
    let tr1 : XMLTree := ⟨(tablesUpdFirst "ITEM" (matchesKey plu deptId) (fun _ => a.1) tr.tables).1⟩
    let tr2 := if a.2.2 then updateItemInBand plu deptId p.price ts tr1 else tr1
    (tr2, a.2.1)

/-- `_get_default_field_values`: the full default field set of a new
`ITEM` record, in insertion order. -/
def defaultFieldValues (p : Product) (plu deptId : Int) (ts : String) :
    List (String × String) :=
  [("Text Area (1)", p.textArea1),
   ("Cost Price", "0"),
   ("Display Text", p.name),
   ("EAN Code", pyStr p.ean),
   ("GTIN", "0"),
   ("Retail Price (1st)", p.price),
   ("PLU Number", pyStr plu),
   ("Container ID", "0"),
   ("Department ID", pyStr deptId),
   ("Product Type", pyStr p.productType),
   ("Margin", "100"),
   ("Barcode Print Control", "0"),
   ("Barcode Format ID", pyStr p.barcodeFmt),
   ("Sales Only ITEM", "0"),
   ("Scale ITEM Type", "0"),
   ("Container Tare Type", "0"),
   ("Nominal Weight Value", "0"),
   ("Proportional Tare Value", "0"),
   ("Nominal Volume", "0"),
   ("Date Offset (1)", "0"),
   ("Date Offset (2)", "0"),
   ("Date Print Control (1)", "0"),
   ("Date Print Control (2)", "0"),
   ("Text Area (2)", ""),
   ("Text Area (3)", ""),
   ("Text Area (4)", ""),
   ("Text Area (5 Serving Size Description)", ""),
   ("Text Area (6 Servings Per Description)", ""),
   ("Message ID (1)", "0"),
   ("Message ID (2)", "0"),
   ("Message Category ID (1)", "14"),
   ("Message Category ID (2)", "14"),
   ("Discount Percentage (1)", "0"),
   ("Items Free (1)", "0"),
   ("ITEM Discount Type", "1"),
   ("Promotion Control", "0"),
   ("Print Promotion Message", "0"),
   ("Promotion Type", "0"),
   ("Promotion Voucher Id", "0"),
   ("Retail Price (2nd / Freq Shopper Alternate Price)", "0"),
   ("Message ID (Promotion Message)", "0"),
   ("Time Period ID", "0"),
   ("Voucher Amount", "0"),
   ("Weight Free (1)", "0"),
   ("Discount Amount Money Off (1)", "0"),
   ("Weight Break Quantity (1)", "0"),
   ("Weight Break Quantity (2)", "0"),
   ("Item Break Quantity (1)", "0"),
   ("Item Break Quantity (2)", "0"),
   ("Item Promotion Quantity Limit", "0"),
   ("Weight Promotion Quantity Limit", "0"),
   ("Promotion Transaction Limit", "0"),
   ("Retail Price (Break 1)", "0"),
   ("Retail Price (Break 2)", "0"),
   ("Keyboard ID (Dynamic 1)", "0"),
   ("Group ID", "0"),
   ("Information Voucher Id", "0"),
   ("Print Format ID", pyStr p.printFmt),
   ("Print Format Type Control", "0"),
   ("Print Format ID (Nutritional Label)", "100"),
   ("Media ID (1)", "0"),
   ("ITEM Logo Control", "0"),
   ("ITEM Logo Promotion Mode", "0"),
   ("ITEM Logo Type", "0"),
   ("Interactive Traceability Mode", "0"),
   ("Traceability Linked ITEM", "0"),
   ("Traceability ITEM", "0"),
   ("Traceability Scheme Id", "1"),
   ("Negative By Count", "0"),
   ("Tax Rate ID (Primary)", "0"),
   ("Tax Rate ID (Secondary)", "0"),
   ("Price Modifier Multiplier", pyStr p.pmm),
   ("Price Modifier Divider", "1"),
   ("Message Category ID (Promotion Message)", "14"),
   ("_TS", ts),
   ("_CF", "1"),
   ("Display Button Text", p.name)]

/-- The band record written by `_add_item_in_band`. -/
def bandRecordFields (plu deptId : Int) (price ts : String) : List (String × String) :=
  [("Band ID", "0"),
   ("Department ID", pyStr deptId),
   ("PLU Number", pyStr plu),
   ("Retail Price (1st)", price),
   ("Retail Price (Break 1)", "0"),
   ("Retail Price (Break 2)", "0"),
   ("Retail Price (Break 3)", "0"),
   ("Retail Price (2nd / Freq Shopper Alternate Price)", "0"),
   ("_TS", ts),
   ("_CF", "1")]

/-- `_add_item_in_band`: append to the first band table; only a warning
when the table is absent. -/
def addItemInBand (plu deptId : Int) (price ts : String) (tr : XMLTree) : XMLTree :=
  match tablesAppend "ITEM in Band" ⟨bandRecordFields plu deptId price ts⟩ tr.tables with
  | some tbs => ⟨tbs⟩
  | none => tr

/-- `_add_new_product`: append the full default record to the first `ITEM`
table, then the band record; `none` models the raised `ProductSyncError`
when no `ITEM` table exists (the caller counts it as an error). -/
def addNewProduct (plu deptId : Int) (p : Product) (ts : String) (tr : XMLTree) :
    Option XMLTree :=
  match tablesAppend "ITEM" ⟨defaultFieldValues p plu deptId ts⟩ tr.tables with
  | none => none
  | some tbs => some (addItemInBand plu deptId p.price ts ⟨tbs⟩)

/-- Sync statistics. -/
structure Stats where
  added : Nat
  updated : Nat
  deleted : Nat
  errors : Nat
deriving DecidableEq

/-- Fresh statistics of a new `ProductSynchronizer`. -/
def Stats.zero : Stats := ⟨0, 0, 0, 0⟩

/-- Composite key of a product. -/
def keyOf (p : Product) : Int × Int := (p.plu, p.deptId)

/-- The truthiness filter of the dict comprehensions:
`if p["PLU"] and p["Department ID"]`. -/
def truthyKey (p : Product) : Bool := !(p.plu == 0) && !(p.deptId == 0)

/-- One step of a Python dict comprehension: first-occurrence key order,
last value wins. -/
def dictInsert (acc : List ((Int × Int) × Product)) (k : Int × Int) (v : Product) :
    List ((Int × Int) × Product) :=
  if acc.any (fun e => e.1 == k) then acc.map (fun e => if e.1 = k then (k, v) else e)
  else acc ++ [(k, v)]

/-- The keyed dict `{(p["PLU"], p["Department ID"]): p for p in ps if ...}`. -/
def buildDict (ps : List Product) : List ((Int × Int) × Product) :=
  (ps.filter truthyKey).foldl (fun acc p => dictInsert acc (keyOf p) p) []

/-- Membership of a key in a dict. -/
def dictHas (d : List ((Int × Int) × Product)) (k : Int × Int) : Bool :=
  d.any (fun e => e.1 == k)

/-- `_process_deletions`: count (and log) every XML key absent from the
CSV dict; the tree is never consulted or changed. -/
def processDeletions (csvD xmlD : List ((Int × Int) × Product)) (st : Stats) : Stats :=
  xmlD.foldl
    (fun st e => if dictHas csvD e.1 then st else { st with deleted := st.deleted + 1 }) st

/-- One iteration of `_process_updates_and_additions`: update when the key
is in the XML dict, otherwise add; a raised add error is caught and
counted. -/
def procItem (xmlD : List ((Int × Int) × Product)) (ts : String)
    (acc : XMLTree × Stats) (e : (Int × Int) × Product) : XMLTree × Stats :=
  if dictHas xmlD e.1 then
    let u := updateExistingProduct e.1.1 e.1.2 e.2 ts acc.1
    (u.1, if u.2 then { acc.2 with updated := acc.2.updated + 1 } else acc.2)
  else
    match addNewProduct e.1.1 e.1.2 e.2 ts acc.1 with
    | some tr' => (tr', { acc.2 with added := acc.2.added + 1 })
    | none => (acc.1, { acc.2 with errors := acc.2.errors + 1 })

/-- `ProductSynchronizer.sync` of a freshly constructed synchronizer:
build both keyed dicts, log deletions, then process updates and
additions in CSV-dict order. -/
def sync (csvProducts xmlProducts : List Product) (tr : XMLTree) (ts : String) :
    XMLTree × Stats :=
  let csvD := buildDict csvProducts
  let xmlD := buildDict xmlProducts
  let st0 := processDeletions csvD xmlD Stats.zero
  csvD.foldl (procItem xmlD ts) (tr, st0)

end ProductSynchronizer

namespace XMLManager

/-- The per-record map `{column_name: (text or "").strip()}` of
`_extract_products`, read through `fields.get(col, dflt)`. -/
def fGet (r : Record) (col dflt : String) : String :=
  ((lookupLast r.fields col).map pyStrip).getD dflt

/-- One record of `XMLManager._extract_products`. -/
def extractRecord (r : Record) (ts : String) : Product :=
  { plu := DataValidator.safe_int_conversion (fGet r "PLU Number" "") 0
    name := fGet r "Display Text" ""
    ean := DataValidator.safe_int_conversion
      (DataValidator.normalize_ean (fGet r "EAN Code" "")) 0
    price := DataValidator.normalize_price (fGet r "Retail Price (1st)" "")
    deptId := DataValidator.safe_int_conversion (fGet r "Department ID" "") 0
    textArea1 := fGet r "Text Area (1)" ""
    productType := DataValidator.safe_int_conversion (fGet r "Product Type" "") 0
    pmm := DataValidator.safe_int_conversion (fGet r "Price Modifier Multiplier" "1") 1
    barcodeFmt := DataValidator.safe_int_conversion (fGet r "Barcode Format ID" "0") 0
    printFmt := DataValidator.safe_int_conversion (fGet r "Print Format ID" "0") 0
    ts := ts }

/-- `XMLManager._extract_products`: one product per `ITEM` record. -/
def extractProducts (tr : XMLTree) (ts : String) : List Product :=
  (itemRecords tr).map (extractRecord · ts)

end XMLManager

/-! ### Derived views used by the statements and proofs. -/

/-- Python `str.replace(",", ".")` (single-character replacement). -/
def replaceCommaDot (s : String) : String :=
  ⟨s.data.map (fun c => if c = ',' then '.' else c)⟩

/-- The shape of every string `normalize_price` emits: optional sign,
integer digits, a point, two digits — of value `(−1) ^ neg · k / 100`. -/
def priceStr (neg : Bool) (k : Nat) : String :=
  ⟨(if neg then ['-'] else []) ++ natRepr (k / 100) ++ '.' :: DataValidator.pad2 (k % 100)⟩

/-- The record carries a `_TS` field. -/
def hasTS (r : Record) : Bool := (lookupLast r.fields "_TS").isSome

/-- Every mapped column present on the record already holds the new text
(the record needs no update for `p`). -/
def agreeB (p : Product) (r : Record) : Bool :=
  (ProductSynchronizer.updateMappings p).all
    (fun cv => ((lookupLast r.fields cv.1).getD cv.2) == cv.2)

/-- Composite key the XML loader would extract from a record. -/
def extKey (r : Record) : Int × Int :=
  (DataValidator.safe_int_conversion (XMLManager.fGet r "PLU Number" "") 0,
   DataValidator.safe_int_conversion (XMLManager.fGet r "Department ID" "") 0)

/-- Both extracted key components are truthy. -/
def recTruthy (r : Record) : Bool := !((extKey r).1 == 0) && !((extKey r).2 == 0)

/-- The key `A` appears in the keyed dict built from the tree's extracted
products. -/
def memKey (tr : XMLTree) (A : Int × Int) : Bool :=
  (itemRecords tr).any (fun r => recTruthy r && (extKey r == A))

/-- State of a processed key after a sync pass: its key is extractable
from the tree (unless no `ITEM` table exists at all), and the first
record matching it — if any — already agrees on every mapped column and
carries `_TS`, so a repeated pass leaves it untouched. -/
def GoodKey (A : Int × Int) (p : Product) (tr : XMLTree) : Prop :=
  (memKey tr A = true ∨ hasItemTable tr = false) ∧
  ∀ r, (itemRecords tr).find? (ProductSynchronizer.matchesKey A.1 A.2) = some r →
    agreeB p r = true ∧ hasTS r = true

/-- The column names the update loop may write on an `ITEM` record. -/
def mappedColNames : List String :=
  ["Display Text", "EAN Code", "Retail Price (1st)", "Text Area (1)", "Product Type",
   "Price Modifier Multiplier", "Barcode Format ID", "Print Format ID", "Display Button Text"]

/-- Tables of a list with the given name, flattened to their records. -/
def allRecsT (tname : String) (tbs : List Table) : List Record :=
  (tbs.filter (fun t => t.name == tname)).flatMap (·.records)

/-- A CSV row with the given Product Type text and the other validated
columns held fixed at accepted values. -/
def c2Row (pt : String) : List (String × String) :=
  [("Retail Price (1st)", "1.00"), ("PLU Number", "5"), ("Product Type", pt),
   ("Department ID", "2")]

/-- A CSV row with the given price text and the other validated columns
held fixed at accepted values. -/
def c4Row (price : String) : List (String × String) :=
  [("Retail Price (1st)", price), ("PLU Number", "5"), ("Product Type", "1"),
   ("Department ID", "2")]

open DataValidator ProductSynchronizer XMLManager CSVLoader

/-! ### Digit strings and the `str` / `int` round trip -/

lemma mem_digitChars_ofNat {k : Nat} (h : k < 10) :
    Char.ofNat (48 + k) ∈ (['0', '1', '2', '3', '4', '5', '6', '7', '8', '9'] : List Char) := by
  interval_cases k <;> decide

lemma natDigitsAux_mem {f n : Nat} {c : Char} (h : c ∈ natDigitsAux f n) :
    c ∈ (['0', '1', '2', '3', '4', '5', '6', '7', '8', '9'] : List Char) := by
  induction f generalizing n with
  | zero => simp [natDigitsAux] at h
  | succ f ih =>
    rw [natDigitsAux] at h
    split at h
    · simp at h
    · rw [List.mem_append] at h
      rcases h with h | h
      · exact ih h
      · simp only [List.mem_singleton] at h
        subst h
        exact mem_digitChars_ofNat (Nat.mod_lt _ (by norm_num))

lemma natRepr_mem {n : Nat} {c : Char} (h : c ∈ natRepr n) :
    c ∈ (['0', '1', '2', '3', '4', '5', '6', '7', '8', '9'] : List Char) := by
  rw [natRepr] at h
  split at h
  · simp at h; subst h; decide
  · exact natDigitsAux_mem h

lemma digit_not_space {c : Char}
    (h : c ∈ (['0', '1', '2', '3', '4', '5', '6', '7', '8', '9'] : List Char)) :
    isPySpace c = false := by
  fin_cases h <;> decide

lemma digit_isDigitC {c : Char}
    (h : c ∈ (['0', '1', '2', '3', '4', '5', '6', '7', '8', '9'] : List Char)) :
    isDigitC c = true := by
  fin_cases h <;> decide

lemma stripL_eq_self {l : List Char} (h : ∀ c ∈ l, isPySpace c = false) : stripL l = l := by
  unfold stripL stripEnd
  have h1 : l.dropWhile isPySpace = l := by
    cases l with
    | nil => rfl
    | cons c cs => rw [List.dropWhile_cons, h c (by simp)]; simp
  rw [h1]
  have h2 : l.reverse.dropWhile isPySpace = l.reverse := by
    cases hr : l.reverse with
    | nil => rfl
    | cons c cs =>
      have hc : c ∈ l := List.mem_reverse.mp (by rw [hr]; simp)
      rw [List.dropWhile_cons, h c hc]; simp
  rw [h2, List.reverse_reverse]

lemma digitsToNat_append (l : List Char) (c : Char) :
    digitsToNat (l ++ [c]) = 10 * digitsToNat l + digitVal c := by
  simp [digitsToNat, List.foldl_append]

lemma digitVal_ofNat {k : Nat} (h : k < 10) : digitVal (Char.ofNat (48 + k)) = k := by
  interval_cases k <;> decide

lemma natDigitsAux_val {f n : Nat} (h : n ≤ f) : digitsToNat (natDigitsAux f n) = n := by
  induction f generalizing n with
  | zero =>
    interval_cases n
    simp [natDigitsAux, digitsToNat]
  | succ f ih =>
    rw [natDigitsAux]
    split
    · simp [digitsToNat]; omega
    · rename_i hn
      have hdiv : n / 10 ≤ f := by
        have := Nat.div_lt_self (Nat.pos_of_ne_zero hn) (by norm_num : 1 < 10)
        omega
      rw [digitsToNat_append, ih hdiv]
      have hk : digitVal (Char.ofNat ('0'.toNat + n % 10)) = n % 10 :=
        digitVal_ofNat (Nat.mod_lt _ (by norm_num))
      rw [hk, Nat.div_add_mod]

lemma digitsToNat_natRepr (n : Nat) : digitsToNat (natRepr n) = n := by
  rw [natRepr]
  split
  · rename_i h; subst h; decide
  · exact natDigitsAux_val le_rfl

lemma natRepr_ne_nil (n : Nat) : natRepr n ≠ [] := by
  rw [natRepr]
  split
  · simp
  · rename_i hn
    cases n with
    | zero => exact absurd rfl hn
    | succ m =>
      rw [natDigitsAux]
      rw [if_neg hn]
      simp

lemma intRepr_mem {i : Int} {c : Char} (h : c ∈ intRepr i) :
    c = '-' ∨ c ∈ (['0', '1', '2', '3', '4', '5', '6', '7', '8', '9'] : List Char) := by
  rw [intRepr] at h
  split at h
  · rcases List.mem_cons.mp h with h | h
    · exact Or.inl h
    · exact Or.inr (natRepr_mem h)
  · exact Or.inr (natRepr_mem h)

lemma intRepr_not_space {i : Int} {c : Char} (h : c ∈ intRepr i) : isPySpace c = false := by
  rcases intRepr_mem h with h | h
  · subst h; decide
  · exact digit_not_space h

lemma udAux_digits {l : List Char} (h : ∀ c ∈ l, isDigitC c = true) : udAux l = some l := by
  induction l with
  | nil => rfl
  | cons c cs ih =>
    have hc := h c (by simp)
    have hne : ¬ c = '_' := by rintro rfl; exact absurd hc (by decide)
    rw [udAux.eq_def]
    dsimp only
    rw [if_neg hne, if_pos hc, ih (fun x hx => h x (by simp [hx]))]
    rfl

lemma underDigits_digits {l : List Char} (hne : l ≠ []) (h : ∀ c ∈ l, isDigitC c = true) :
    underDigits l = some l := by
  cases l with
  | nil => exact absurd rfl hne
  | cons c cs =>
    rw [underDigits, if_pos (h c (by simp)), udAux_digits (fun x hx => h x (by simp [hx]))]
    rfl

lemma signedDigits_digits {l : List Char} (hne : l ≠ []) (h : ∀ c ∈ l, isDigitC c = true) :
    signedDigits l = some ((digitsToNat l : Int)) := by
  cases l with
  | nil => exact absurd rfl hne
  | cons c cs =>
    have hc := h c (by simp)
    have h1 : ¬ c = '-' := by rintro rfl; exact absurd hc (by decide)
    have h2 : ¬ c = '+' := by rintro rfl; exact absurd hc (by decide)
    rw [signedDigits, if_neg h1, if_neg h2, underDigits_digits (by simp) h]
    rfl

lemma signedDigits_neg_digits {l : List Char} (hne : l ≠ []) (h : ∀ c ∈ l, isDigitC c = true) :
    signedDigits ('-' :: l) = some (-(digitsToNat l : Int)) := by
  rw [signedDigits, if_pos rfl, underDigits_digits hne h]
  rfl

lemma stripL_intRepr (i : Int) : stripL (intRepr i) = intRepr i :=
  stripL_eq_self (fun _ hc => intRepr_not_space hc)

lemma pyIntParse_intRepr (i : Int) : pyIntParse ⟨intRepr i⟩ = some i := by
  unfold pyIntParse
  show signedDigits (stripL (intRepr i)) = some i
  rw [stripL_intRepr, intRepr]
  split
  · rename_i hi
    rw [signedDigits_neg_digits (natRepr_ne_nil _) (fun c hc => digit_isDigitC (natRepr_mem hc)),
      digitsToNat_natRepr]
    congr 1
    omega
  · rename_i hi
    rw [signedDigits_digits (natRepr_ne_nil _) (fun c hc => digit_isDigitC (natRepr_mem hc))]
    rw [digitsToNat_natRepr, Option.some_inj]
    omega

lemma safe_int_intRepr (i d : Int) : DataValidator.safe_int_conversion ⟨intRepr i⟩ d = i := by
  unfold DataValidator.safe_int_conversion
  show (if stripL (intRepr i) = [] then d else (pyIntParse ⟨intRepr i⟩).getD d) = i
  rw [stripL_intRepr, if_neg ?hne, pyIntParse_intRepr]
  · rfl
  case hne =>
    rw [intRepr]
    split
    · simp
    · exact natRepr_ne_nil _

lemma intRepr_injective : Function.Injective intRepr := by
  intro a b hab
  have ha := pyIntParse_intRepr a
  have hb := pyIntParse_intRepr b
  rw [show (⟨intRepr a⟩ : String) = ⟨intRepr b⟩ from congrArg _ hab] at ha
  rw [ha] at hb
  exact Option.some_injective _ hb

lemma natDigitsAux_zero (f : Nat) : natDigitsAux f 0 = [] := by
  cases f <;> simp [natDigitsAux]

lemma natDigitsAux_bounds {f n : Nat} (h : n ≤ f) :
    n < 10 ^ (natDigitsAux f n).length ∧ (n ≠ 0 → 10 ^ ((natDigitsAux f n).length - 1) ≤ n) := by
  induction f generalizing n with
  | zero =>
    interval_cases n
    simp [natDigitsAux]
  | succ f ih =>
    rw [natDigitsAux]
    split
    · rename_i h0
      subst h0
      simp
    · rename_i hn
      have hdiv : n / 10 ≤ f := by
        have := Nat.div_lt_self (Nat.pos_of_ne_zero hn) (by norm_num : 1 < 10)
        omega
      obtain ⟨u, v⟩ := ih hdiv
      rw [List.length_append, List.length_singleton]
      have hmod : n % 10 < 10 := Nat.mod_lt _ (by norm_num)
      have hsplit : n = 10 * (n / 10) + n % 10 := (Nat.div_add_mod n 10).symm
      constructor
      · have h1 : n < 10 * (n / 10 + 1) := by omega
        have h2 : 10 * (n / 10 + 1) ≤ 10 * 10 ^ (natDigitsAux f (n / 10)).length := by
          have := u
          omega
        calc n < 10 * (n / 10 + 1) := h1
          _ ≤ 10 * 10 ^ (natDigitsAux f (n / 10)).length := h2
          _ = 10 ^ ((natDigitsAux f (n / 10)).length + 1) := by ring
      · intro _
        by_cases hq : n / 10 = 0
        · rw [hq, natDigitsAux_zero]
          simpa using Nat.pos_of_ne_zero hn
        · have hlow := v hq
          have hlen : 1 ≤ (natDigitsAux f (n / 10)).length := by
            rcases Nat.eq_zero_or_pos (natDigitsAux f (n / 10)).length with hl | hl
            · rw [hl] at u
              simp at u
              omega
            · omega
          have : 10 ^ ((natDigitsAux f (n / 10)).length + 1 - 1) =
              10 * 10 ^ ((natDigitsAux f (n / 10)).length - 1) := by
            rw [Nat.add_sub_cancel]
            conv_lhs => rw [show (natDigitsAux f (n / 10)).length =
              ((natDigitsAux f (n / 10)).length - 1) + 1 by omega]
            rw [pow_succ]
            ring
          rw [this]
          omega

lemma natRepr_length_upper (n : Nat) : n < 10 ^ (natRepr n).length := by
  rw [natRepr]
  split
  · rename_i h; subst h; simp
  · exact (natDigitsAux_bounds le_rfl).1

lemma natRepr_length_lower {n : Nat} (h : n ≠ 0) : 10 ^ ((natRepr n).length - 1) ≤ n := by
  rw [natRepr, if_neg h]
  exact (natDigitsAux_bounds le_rfl).2 h

/-! ### Field lookup and mutation on records -/

lemma find?_setFirstF_ne {l : List (String × String)} {col col' v : String} (h : col' ≠ col) :
    (setFirstF l col v).find? (fun f => f.1 == col') = l.find? (fun f => f.1 == col') := by
  induction l with
  | nil => rfl
  | cons f fs ih =>
    rw [setFirstF]
    split
    · rename_i hf
      rw [List.find?_cons, List.find?_cons]
      have h1 : (((col, v) : String × String).1 == col') = false := by
        simp only [beq_eq_false_iff_ne, ne_eq]
        exact fun hh => h hh.symm
      have h2 : (f.1 == col') = false := by
        rw [hf]
        simp only [beq_eq_false_iff_ne, ne_eq]
        exact fun hh => h hh.symm
      rw [h1, h2]
    · rw [List.find?_cons, List.find?_cons]
      cases hf : (f.1 == col') with
      | true => rfl
      | false => exact ih

lemma find?_setFirstF_same {l : List (String × String)} {col v : String} :
    (setFirstF l col v).find? (fun f => f.1 == col) =
      (l.find? (fun f => f.1 == col)).map (fun _ => (col, v)) := by
  induction l with
  | nil => rfl
  | cons f fs ih =>
    rw [setFirstF]
    split
    · rename_i hf
      rw [List.find?_cons, List.find?_cons]
      have h1 : (((col, v) : String × String).1 == col) = true := by simp
      have h2 : (f.1 == col) = true := by simp [hf]
      rw [h1, h2]
      rfl
    · rename_i hf
      rw [List.find?_cons, List.find?_cons]
      have h2 : (f.1 == col) = false := by simpa using hf
      rw [h2]
      exact ih

lemma setFirstF_map_fst (l : List (String × String)) (col v : String) :
    (setFirstF l col v).map Prod.fst = l.map Prod.fst := by
  induction l with
  | nil => rfl
  | cons f fs ih =>
    rw [setFirstF]
    split
    · rename_i hf
      simp [hf]
    · simp [ih]

lemma lookupLast_setLast_same (fs : List (String × String)) (col v : String) :
    lookupLast (setLast fs col v) col = (lookupLast fs col).map (fun _ => v) := by
  unfold lookupLast setLast
  rw [List.reverse_reverse, find?_setFirstF_same]
  cases fs.reverse.find? (fun f => f.1 == col) <;> rfl

lemma lookupLast_setLast_ne (fs : List (String × String)) {col col' : String} (v : String)
    (h : col' ≠ col) : lookupLast (setLast fs col v) col' = lookupLast fs col' := by
  unfold lookupLast setLast
  rw [List.reverse_reverse, find?_setFirstF_ne h]

lemma setLast_map_fst (fs : List (String × String)) (col v : String) :
    (setLast fs col v).map Prod.fst = fs.map Prod.fst := by
  unfold setLast
  rw [List.map_reverse, setFirstF_map_fst, List.map_reverse, List.reverse_reverse]

lemma lookupLast_append_single (fs : List (String × String)) (c v col : String) :
    lookupLast (fs ++ [(c, v)]) col = if col = c then some v else lookupLast fs col := by
  unfold lookupLast
  rw [List.reverse_append]
  simp only [List.reverse_cons, List.reverse_nil, List.nil_append, List.singleton_append]
  rw [List.find?_cons]
  by_cases h : col = c
  · rw [if_pos h]
    have hb : (((c, v) : String × String).1 == col) = true := by simp [h]
    rw [hb]
    rfl
  · rw [if_neg h]
    have hb : (((c, v) : String × String).1 == col) = false := by
      simp only [beq_eq_false_iff_ne, ne_eq]
      exact fun hh => h hh.symm
    rw [hb]

lemma lookupLast_eq_none_iff (fs : List (String × String)) (col : String) :
    lookupLast fs col = none ↔ col ∉ fs.map Prod.fst := by
  unfold lookupLast
  rw [Option.map_eq_none', List.find?_eq_none]
  constructor
  · intro h hc
    rw [List.mem_map] at hc
    obtain ⟨f, hf, hcol⟩ := hc
    exact h f (List.mem_reverse.mpr hf) (by simp [hcol])
  · intro h f hf hpred
    exact h (List.mem_map.mpr ⟨f, List.mem_reverse.mp hf, by simpa using hpred⟩)

/-! ### First-match update and append on the table list -/

lemma updFirst_of_find?_none {pred : Record → Bool} {f : Record → Record} {l : List Record}
    (h : l.find? pred = none) : updFirst pred f l = (l, false) := by
  induction l with
  | nil => rfl
  | cons r rs ih =>
    rw [List.find?_cons] at h
    cases hp : pred r with
    | true => rw [hp] at h; exact absurd h (by simp)
    | false =>
      rw [hp] at h
      rw [updFirst, if_neg (by simp [hp]), ih h]

lemma updFirst_of_find?_some {pred : Record → Bool} {f : Record → Record} {l : List Record}
    {r : Record} (h : l.find? pred = some r) :
    ∃ l₁ l₂, l = l₁ ++ r :: l₂ ∧ (∀ x ∈ l₁, pred x = false) ∧ pred r = true ∧
      updFirst pred f l = (l₁ ++ f r :: l₂, true) := by
  induction l with
  | nil => simp at h
  | cons x xs ih =>
    rw [List.find?_cons] at h
    cases hp : pred x with
    | true =>
      rw [hp] at h
      simp only [Option.some_inj] at h
      subst h
      exact ⟨[], xs, rfl, by simp, hp, by rw [updFirst, if_pos hp]; rfl⟩
    | false =>
      rw [hp] at h
      obtain ⟨l₁, l₂, hdec, hfail, hr, hupd⟩ := ih h
      refine ⟨x :: l₁, l₂, by simp [hdec], ?_, hr, ?_⟩
      · intro y hy
        rcases List.mem_cons.mp hy with hy | hy
        · subst hy; exact hp
        · exact hfail y hy
      · rw [updFirst, if_neg (by simp [hp]), hupd]
        rfl

lemma updFirst_fst_of_false {pred : Record → Bool} {f : Record → Record} {l : List Record}
    (h : (updFirst pred f l).2 = false) : (updFirst pred f l).1 = l := by
  cases hf : l.find? pred with
  | none => rw [updFirst_of_find?_none hf]
  | some r =>
    obtain ⟨_, _, _, _, _, hupd⟩ := updFirst_of_find?_some (f := f) hf
    rw [hupd] at h
    simp at h

lemma updFirst_append (pred : Record → Bool) (f : Record → Record) (l₁ l₂ : List Record) :
    updFirst pred f (l₁ ++ l₂) =
      if (updFirst pred f l₁).2 then ((updFirst pred f l₁).1 ++ l₂, true)
      else (l₁ ++ (updFirst pred f l₂).1, (updFirst pred f l₂).2) := by
  induction l₁ with
  | nil =>
    simp only [List.nil_append, updFirst]
    rfl
  | cons r rs ih =>
    cases hp : pred r with
    | true =>
      simp only [List.cons_append, updFirst, if_pos hp]
      rfl
    | false =>
      have hcons : updFirst pred f (r :: (rs ++ l₂)) =
          (r :: (updFirst pred f (rs ++ l₂)).1, (updFirst pred f (rs ++ l₂)).2) := by
        rw [updFirst, if_neg (by simp [hp] : ¬ pred r = true)]
      have hcons2 : updFirst pred f (r :: rs) =
          (r :: (updFirst pred f rs).1, (updFirst pred f rs).2) := by
        rw [updFirst, if_neg (by simp [hp] : ¬ pred r = true)]
      rw [List.cons_append, hcons, ih, hcons2]
      cases hf : (updFirst pred f rs).2 with
      | true => simp [hf]
      | false => simp [hf]

lemma allRecsT_nil (tname : String) : allRecsT tname [] = [] := rfl

lemma allRecsT_cons (tname : String) (t : Table) (ts : List Table) :
    allRecsT tname (t :: ts) =
      if t.name = tname then t.records ++ allRecsT tname ts else allRecsT tname ts := by
  unfold allRecsT
  rw [List.filter_cons]
  by_cases h : t.name = tname
  · rw [if_pos (by simpa using h), if_pos h, List.flatMap_cons]
  · rw [if_neg (by simpa using h), if_neg h]

lemma allRecs_eq (tname : String) (tr : XMLTree) : allRecs tname tr = allRecsT tname tr.tables := rfl

lemma tablesUpdFirst_view (tname : String) (pred : Record → Bool) (f : Record → Record)
    (tbs : List Table) :
    allRecsT tname (tablesUpdFirst tname pred f tbs).1 =
        (updFirst pred f (allRecsT tname tbs)).1 ∧
      (tablesUpdFirst tname pred f tbs).2 = (updFirst pred f (allRecsT tname tbs)).2 := by
  induction tbs with
  | nil => simp [tablesUpdFirst, allRecsT_nil, updFirst]
  | cons t ts ih =>
    have hA : allRecsT tname (t :: ts) = if t.name = tname then
        t.records ++ allRecsT tname ts else allRecsT tname ts := allRecsT_cons tname t ts
    by_cases hname : t.name = tname
    · rcases Bool.eq_false_or_eq_true (updFirst pred f t.records).2 with hflag | hflag
      · rw [tablesUpdFirst, if_pos hname, if_pos hflag, hA, if_pos hname,
          updFirst_append, if_pos hflag]
        constructor
        · rw [allRecsT_cons, if_pos hname]
        · rfl
      · rw [tablesUpdFirst, if_pos hname, if_neg (by simp [hflag]), hA, if_pos hname,
          updFirst_append, if_neg (by simp [hflag])]
        constructor
        · rw [allRecsT_cons, if_pos hname, ih.1]
        · exact ih.2
    · rw [tablesUpdFirst, if_neg hname, hA, if_neg hname, allRecsT_cons, if_neg hname]
      exact ih

lemma tablesUpdFirst_other (tname tname' : String) (pred : Record → Bool) (f : Record → Record)
    (tbs : List Table) (h : tname' ≠ tname) :
    allRecsT tname' (tablesUpdFirst tname pred f tbs).1 = allRecsT tname' tbs := by
  induction tbs with
  | nil => rfl
  | cons t ts ih =>
    by_cases hname : t.name = tname
    · have hne : ¬ t.name = tname' := by rw [hname]; exact fun hh => h hh.symm
      rcases Bool.eq_false_or_eq_true (updFirst pred f t.records).2 with hflag | hflag
      · rw [tablesUpdFirst, if_pos hname, if_pos hflag,
          allRecsT_cons, allRecsT_cons, if_neg hne, if_neg hne]
      · rw [tablesUpdFirst, if_pos hname, if_neg (by simp [hflag]),
          allRecsT_cons, allRecsT_cons, if_neg hne, if_neg hne]
        exact ih
    · rw [tablesUpdFirst, if_neg hname, allRecsT_cons, allRecsT_cons]
      by_cases h2 : t.name = tname'
      · rw [if_pos h2, if_pos h2, ih]
      · rw [if_neg h2, if_neg h2]
        exact ih

lemma tablesUpdFirst_names (tname : String) (pred : Record → Bool) (f : Record → Record)
    (tbs : List Table) :
    (tablesUpdFirst tname pred f tbs).1.map Table.name = tbs.map Table.name := by
  induction tbs with
  | nil => rfl
  | cons t ts ih =>
    by_cases hname : t.name = tname
    · rcases Bool.eq_false_or_eq_true (updFirst pred f t.records).2 with hflag | hflag
      · rw [tablesUpdFirst, if_pos hname, if_pos hflag]
        simp
      · rw [tablesUpdFirst, if_pos hname, if_neg (by simp [hflag])]
        simp [ih]
    · rw [tablesUpdFirst, if_neg hname]
      simp [ih]

lemma tablesAppend_none_iff (tname : String) (r : Record) (tbs : List Table) :
    tablesAppend tname r tbs = none ↔ ∀ t ∈ tbs, ¬ t.name = tname := by
  induction tbs with
  | nil => simp [tablesAppend]
  | cons t ts ih =>
    rw [tablesAppend]
    by_cases hname : t.name = tname
    · rw [if_pos hname]
      simp [hname]
    · rw [if_neg hname]
      simp only [Option.map_eq_none', ih]
      constructor
      · intro h x hx
        rcases List.mem_cons.mp hx with hx | hx
        · subst hx; exact hname
        · exact h x hx
      · intro h x hx
        exact h x (List.mem_cons_of_mem _ hx)

lemma allRecsT_eq_nil_of_no_table {tname : String} {tbs : List Table}
    (h : ∀ t ∈ tbs, ¬ t.name = tname) : allRecsT tname tbs = [] := by
  induction tbs with
  | nil => rfl
  | cons t ts ih =>
    rw [allRecsT_cons, if_neg (h t (by simp))]
    exact ih fun x hx => h x (List.mem_cons_of_mem _ hx)

lemma tablesAppend_view {tname : String} {r : Record} {tbs tbs' : List Table}
    (h : tablesAppend tname r tbs = some tbs') :
    (∃ l₁ l₂, allRecsT tname tbs = l₁ ++ l₂ ∧ allRecsT tname tbs' = l₁ ++ r :: l₂) ∧
      (∀ tn', tn' ≠ tname → allRecsT tn' tbs' = allRecsT tn' tbs) ∧
      tbs'.map Table.name = tbs.map Table.name := by
  induction tbs generalizing tbs' with
  | nil => simp [tablesAppend] at h
  | cons t ts ih =>
    rw [tablesAppend] at h
    by_cases hname : t.name = tname
    · rw [if_pos hname, Option.some_inj] at h
      subst h
      refine ⟨⟨t.records, allRecsT tname ts, ?_, ?_⟩, ?_, ?_⟩
      · rw [allRecsT_cons, if_pos hname]
      · rw [allRecsT_cons]
        simp only [hname, if_pos]
        simp
      · intro tn' htn
        have hne : ¬ (t.name = tn') := by rw [hname]; exact fun hh => htn hh.symm
        rw [allRecsT_cons, allRecsT_cons]
        simp [hne]
      · simp
    · rw [if_neg hname] at h
      cases hrec : tablesAppend tname r ts with
      | none => rw [hrec] at h; simp at h
      | some ts' =>
        rw [hrec] at h
        simp only [Option.map_some', Option.some_inj] at h
        subst h
        obtain ⟨⟨l₁, l₂, hv1, hv2⟩, hother, hnames⟩ := ih hrec
        refine ⟨⟨l₁, l₂, ?_, ?_⟩, ?_, ?_⟩
        · rw [allRecsT_cons, if_neg hname, hv1]
        · rw [allRecsT_cons, if_neg hname, hv2]
        · intro tn' htn
          rw [allRecsT_cons, allRecsT_cons]
          by_cases h2 : t.name = tn'
          · rw [if_pos h2, if_pos h2, hother tn' htn]
          · rw [if_neg h2, if_neg h2]
            exact hother tn' htn
        · simp [hnames]

/-! ### `find?` stability under replacement and insertion -/

lemma find?_append_of_none {α : Type _} {p : α → Bool} {l₁ l₂ : List α}
    (h : l₁.find? p = none) : (l₁ ++ l₂).find? p = l₂.find? p := by
  induction l₁ with
  | nil => rfl
  | cons x xs ih =>
    rcases Bool.eq_false_or_eq_true (p x) with hp | hp
    · rw [List.find?_cons_of_pos _ hp] at h
      exact absurd h (by simp)
    · rw [List.find?_cons_of_neg _ (by simp [hp])] at h
      rw [List.cons_append, List.find?_cons_of_neg _ (by simp [hp])]
      exact ih h

lemma find?_append_of_some {α : Type _} {p : α → Bool} {l₁ l₂ : List α} {r : α}
    (h : l₁.find? p = some r) : (l₁ ++ l₂).find? p = some r := by
  induction l₁ with
  | nil => simp at h
  | cons x xs ih =>
    rcases Bool.eq_false_or_eq_true (p x) with hp | hp
    · rw [List.find?_cons_of_pos _ hp] at h
      rw [List.cons_append, List.find?_cons_of_pos _ hp]
      exact h
    · rw [List.find?_cons_of_neg _ (by simp [hp])] at h
      rw [List.cons_append, List.find?_cons_of_neg _ (by simp [hp])]
      exact ih h

lemma find?_replace_mid {α : Type _} (p : α → Bool) (l₁ l₂ : List α) (a b : α)
    (ha : p a = false) (hb : p b = false) :
    (l₁ ++ a :: l₂).find? p = (l₁ ++ b :: l₂).find? p := by
  cases hf : l₁.find? p with
  | none =>
    rw [find?_append_of_none hf, find?_append_of_none hf,
      List.find?_cons_of_neg _ (by simp [ha]), List.find?_cons_of_neg _ (by simp [hb])]
  | some r => rw [find?_append_of_some hf, find?_append_of_some hf]

lemma find?_insert_mid {α : Type _} (p : α → Bool) (l₁ l₂ : List α) (a : α)
    (ha : p a = false) : (l₁ ++ a :: l₂).find? p = (l₁ ++ l₂).find? p := by
  cases hf : l₁.find? p with
  | none =>
    rw [find?_append_of_none hf, find?_append_of_none hf,
      List.find?_cons_of_neg _ (by simp [ha])]
  | some r => rw [find?_append_of_some hf, find?_append_of_some hf]

/-! ### The comparison loop and the `_TS` / `_CF` stamping -/

lemma applyMappingsAux_agree {L : List (String × String)} {fs : List (String × String)}
    {u pu : Bool} (h : ∀ cv ∈ L, ((lookupLast fs cv.1).getD cv.2) == cv.2) :
    applyMappingsAux L fs u pu = (fs, u, pu) := by
  induction L with
  | nil => rfl
  | cons cv rest ih =>
    obtain ⟨col, v⟩ := cv
    rw [applyMappingsAux]
    cases hl : lookupLast fs col with
    | none => exact ih fun x hx => h x (List.mem_cons_of_mem _ hx)
    | some old =>
      dsimp only
      have hh := h (col, v) (by simp)
      rw [hl] at hh
      have : old = v := by simpa using hh
      rw [if_pos this]
      exact ih fun x hx => h x (List.mem_cons_of_mem _ hx)

lemma applyMappingsAux_post {L : List (String × String)} :
    ∀ {fs : List (String × String)} {u pu : Bool}, (L.map Prod.fst).Nodup →
    (∀ c, c ∉ L.map Prod.fst →
        lookupLast (applyMappingsAux L fs u pu).1 c = lookupLast fs c) ∧
      ((applyMappingsAux L fs u pu).1.map Prod.fst = fs.map Prod.fst) ∧
      (∀ cv ∈ L, ((lookupLast (applyMappingsAux L fs u pu).1 cv.1).getD cv.2) == cv.2) := by
  induction L with
  | nil =>
    intro fs u pu _
    simp [applyMappingsAux]
  | cons cv rest ih =>
    intro fs u pu hnd
    obtain ⟨col, v⟩ := cv
    simp only [List.map_cons, List.nodup_cons] at hnd
    obtain ⟨hcolr, hndr⟩ := hnd
    rw [applyMappingsAux]
    cases hl : lookupLast fs col with
    | none =>
      obtain ⟨ha, hb, hc⟩ := @ih fs u pu hndr
      refine ⟨?_, hb, ?_⟩
      · intro c hcm
        exact ha c (by simp only [List.map_cons, List.mem_cons] at hcm; tauto)
      · intro cv hcv
        rcases List.mem_cons.mp hcv with hcv | hcv
        · subst hcv
          rw [ha col hcolr, hl]
          simp
        · exact hc cv hcv
    | some old =>
      dsimp only
      by_cases hov : old = v
      · rw [if_pos hov]
        obtain ⟨ha, hb, hc⟩ := @ih fs u pu hndr
        refine ⟨?_, hb, ?_⟩
        · intro c hcm
          exact ha c (by simp only [List.map_cons, List.mem_cons] at hcm; tauto)
        · intro cv hcv
          rcases List.mem_cons.mp hcv with hcv | hcv
          · subst hcv
            rw [ha col hcolr, hl, hov]
            simp
          · exact hc cv hcv
      · rw [if_neg hov]
        obtain ⟨ha, hb, hc⟩ :=
          @ih (setLast fs col v) true (pu || col == "Retail Price (1st)") hndr
        refine ⟨?_, ?_, ?_⟩
        · intro c hcm
          simp only [List.map_cons, List.mem_cons] at hcm
          push_neg at hcm
          rw [ha c hcm.2, lookupLast_setLast_ne _ _ hcm.1]
        · rw [hb, setLast_map_fst]
        · intro cv hcv
          rcases List.mem_cons.mp hcv with hcv | hcv
          · subst hcv
            rw [ha col hcolr, lookupLast_setLast_same, hl]
            simp
          · exact hc cv hcv

lemma tsCfStamp_false_of_hasTS {fs : List (String × String)} {ts x : String}
    (h : lookupLast fs "_TS" = some x) : tsCfStamp fs false ts = fs := by
  simp [tsCfStamp, h]

lemma tsCfStamp_false_of_noTS {fs : List (String × String)} {ts : String}
    (h : lookupLast fs "_TS" = none) : tsCfStamp fs false ts = fs ++ [("_TS", ts)] := by
  simp [tsCfStamp, h]

lemma lookupLast_tsCfStamp_TS (fs : List (String × String)) (u : Bool) (ts : String) :
    (lookupLast (tsCfStamp fs u ts) "_TS").isSome = true := by
  unfold tsCfStamp
  have step1 : ∀ fs1 : List (String × String), (lookupLast fs1 "_TS").isSome = true →
      (lookupLast
        (if u = true then
          match lookupLast fs1 "_CF" with
          | none => fs1 ++ [("_CF", "1")]
          | some _ => setLast fs1 "_CF" "1"
        else fs1) "_TS").isSome = true := by
    intro fs1 h1
    by_cases hu : u = true
    · rw [if_pos hu]
      cases hcf : lookupLast fs1 "_CF" with
      | none =>
        rw [lookupLast_append_single, if_neg (by decide)]
        exact h1
      | some y =>
        rw [lookupLast_setLast_ne _ _ (by decide : ("_TS" : String) ≠ "_CF")]
        exact h1
    · rw [if_neg hu]
      exact h1
  have step0 : (lookupLast
      (if (u || (lookupLast fs "_TS").isNone) = true then
        match lookupLast fs "_TS" with
        | none => fs ++ [("_TS", ts)]
        | some _ => setLast fs "_TS" ts
      else fs) "_TS").isSome = true := by
    by_cases hcond : (u || (lookupLast fs "_TS").isNone) = true
    · rw [if_pos hcond]
      cases hts : lookupLast fs "_TS" with
      | none =>
        rw [lookupLast_append_single, if_pos rfl]
        rfl
      | some y =>
        rw [lookupLast_setLast_same, hts]
        rfl
    · rw [if_neg hcond]
      simp only [Bool.or_eq_true, not_or] at hcond
      rcases hopt : lookupLast fs "_TS" with _ | y
      · exact absurd (by simp [hopt]) hcond.2
      · rfl
  exact step1 _ step0

lemma tsCfStamp_frame {fs : List (String × String)} {u : Bool} {ts c : String}
    (h1 : c ≠ "_TS") (h2 : c ≠ "_CF") :
    lookupLast (tsCfStamp fs u ts) c = lookupLast fs c := by
  unfold tsCfStamp
  have e1 : ∀ fs1 : List (String × String), lookupLast
      (if u = true then
        match lookupLast fs1 "_CF" with
        | none => fs1 ++ [("_CF", "1")]
        | some _ => setLast fs1 "_CF" "1"
      else fs1) c = lookupLast fs1 c := by
    intro fs1
    by_cases hu : u = true
    · rw [if_pos hu]
      cases hcf : lookupLast fs1 "_CF" with
      | none => rw [lookupLast_append_single, if_neg h2]
      | some y => rw [lookupLast_setLast_ne _ _ h2]
    · rw [if_neg hu]
  rw [e1]
  by_cases hcond : (u || (lookupLast fs "_TS").isNone) = true
  · rw [if_pos hcond]
    cases hts : lookupLast fs "_TS" with
    | none => rw [lookupLast_append_single, if_neg h1]
    | some y => rw [lookupLast_setLast_ne _ _ h1]
  · rw [if_neg hcond]

lemma tsCfStamp_names {fs : List (String × String)} {u : Bool} {ts c : String}
    (h : c ∈ (tsCfStamp fs u ts).map Prod.fst) :
    c ∈ fs.map Prod.fst ∨ c = "_TS" ∨ c = "_CF" := by
  unfold tsCfStamp at h
  have names1 : ∀ fs1 : List (String × String),
      c ∈ (if u = true then
        match lookupLast fs1 "_CF" with
        | none => fs1 ++ [("_CF", "1")]
        | some _ => setLast fs1 "_CF" "1"
      else fs1).map Prod.fst → c ∈ fs1.map Prod.fst ∨ c = "_CF" := by
    intro fs1 hm
    by_cases hu : u = true
    · rw [if_pos hu] at hm
      cases hcf : lookupLast fs1 "_CF" with
      | none =>
        rw [hcf] at hm
        rw [List.map_append] at hm
        rcases List.mem_append.mp hm with hm | hm
        · exact Or.inl hm
        · simp at hm
          exact Or.inr hm
      | some y =>
        rw [hcf] at hm
        rw [setLast_map_fst] at hm
        exact Or.inl hm
    · rw [if_neg hu] at hm
      exact Or.inl hm
  rcases names1 _ h with hm | hm
  · by_cases hcond : (u || (lookupLast fs "_TS").isNone) = true
    · rw [if_pos hcond] at hm
      cases hts : lookupLast fs "_TS" with
      | none =>
        rw [hts] at hm
        rw [List.map_append] at hm
        rcases List.mem_append.mp hm with hm | hm
        · exact Or.inl hm
        · simp at hm
          exact Or.inr (Or.inl hm)
      | some y =>
        rw [hts] at hm
        rw [setLast_map_fst] at hm
        exact Or.inl hm
    · rw [if_neg hcond] at hm
      exact Or.inl hm
  · exact Or.inr (Or.inr hm)

lemma updateMappings_map_fst (p : Product) :
    (ProductSynchronizer.updateMappings p).map Prod.fst = mappedColNames := rfl

lemma mappedColNames_nodup : mappedColNames.Nodup := by decide

lemma mappedCols_ne_tscf : ∀ c ∈ mappedColNames, ¬(c = "_TS") ∧ ¬(c = "_CF") := by decide

lemma updateMappings_nodup (p : Product) :
    ((ProductSynchronizer.updateMappings p).map Prod.fst).Nodup := by
  rw [updateMappings_map_fst]
  exact mappedColNames_nodup

lemma recUpdate_lookup_frame (p : Product) (ts : String) (r : Record) (c : String)
    (h : c ∉ mappedColNames) (h1 : c ≠ "_TS") (h2 : c ≠ "_CF") :
    lookupLast (ProductSynchronizer.recUpdate p ts r).1.fields c = lookupLast r.fields c := by
  unfold ProductSynchronizer.recUpdate
  dsimp only
  rw [tsCfStamp_frame h1 h2]
  exact (applyMappingsAux_post (updateMappings_nodup p)).1 c
    (by rw [updateMappings_map_fst]; exact h)

lemma recUpdate_names {p : Product} {ts : String} {r : Record} {c : String}
    (h : c ∈ (ProductSynchronizer.recUpdate p ts r).1.fields.map Prod.fst) :
    c ∈ r.fields.map Prod.fst ∨ c = "_TS" ∨ c = "_CF" := by
  unfold ProductSynchronizer.recUpdate at h
  dsimp only at h
  rcases tsCfStamp_names h with hm | hm
  · unfold ProductSynchronizer.applyMappings at hm
    rw [(applyMappingsAux_post (updateMappings_nodup p)).2.1] at hm
    exact Or.inl hm
  · exact Or.inr hm

lemma recUpdate_hasTS (p : Product) (ts : String) (r : Record) :
    hasTS (ProductSynchronizer.recUpdate p ts r).1 = true := by
  unfold hasTS ProductSynchronizer.recUpdate
  dsimp only
  exact lookupLast_tsCfStamp_TS _ _ _

lemma recUpdate_agree (p : Product) (ts : String) (r : Record) :
    agreeB p (ProductSynchronizer.recUpdate p ts r).1 = true := by
  unfold agreeB
  rw [List.all_eq_true]
  intro cv hcv
  have hmem : cv.1 ∈ mappedColNames := by
    rw [← updateMappings_map_fst p]
    exact List.mem_map_of_mem _ hcv
  have hne := mappedCols_ne_tscf cv.1 hmem
  unfold ProductSynchronizer.recUpdate
  dsimp only
  rw [tsCfStamp_frame hne.1 hne.2]
  exact (applyMappingsAux_post (updateMappings_nodup p)).2.2 cv hcv

lemma recUpdate_self {p : Product} {ts : String} {r : Record} (ha : agreeB p r = true)
    (ht : hasTS r = true) : ProductSynchronizer.recUpdate p ts r = (r, false, false) := by
  unfold ProductSynchronizer.recUpdate ProductSynchronizer.applyMappings
  have hag : ∀ cv ∈ ProductSynchronizer.updateMappings p,
      ((lookupLast r.fields cv.1).getD cv.2) == cv.2 := by
    intro cv hcv
    exact List.all_eq_true.mp ha cv hcv
  rw [applyMappingsAux_agree hag]
  unfold hasTS at ht
  obtain ⟨x, hx⟩ := Option.isSome_iff_exists.mp ht
  dsimp only
  rw [tsCfStamp_false_of_hasTS hx]

lemma recUpdate_extKey (p : Product) (ts : String) (r : Record) :
    extKey (ProductSynchronizer.recUpdate p ts r).1 = extKey r := by
  unfold extKey XMLManager.fGet
  rw [recUpdate_lookup_frame p ts r "PLU Number" (by decide) (by decide) (by decide),
    recUpdate_lookup_frame p ts r "Department ID" (by decide) (by decide) (by decide)]

lemma recUpdate_matchesKey (plu dept : Int) (p : Product) (ts : String) (r : Record) :
    ProductSynchronizer.matchesKey plu dept (ProductSynchronizer.recUpdate p ts r).1 =
      ProductSynchronizer.matchesKey plu dept r := by
  unfold ProductSynchronizer.matchesKey
  rw [recUpdate_lookup_frame p ts r "PLU Number" (by decide) (by decide) (by decide),
    recUpdate_lookup_frame p ts r "Department ID" (by decide) (by decide) (by decide)]

/-! ### Key extraction and the default record -/

lemma intRepr_ne_nil (i : Int) : intRepr i ≠ [] := by
  unfold intRepr
  split
  · simp
  · exact natRepr_ne_nil _

lemma pyStr_mk_eq (i : Int) : pyStr i = ⟨intRepr i⟩ := rfl

lemma pyStrip_pyStr (i : Int) : pyStrip (pyStr i) = pyStr i := by
  unfold pyStrip pyStr
  exact congrArg String.mk (stripL_intRepr i)

lemma safe_int_pyStr (i d : Int) : DataValidator.safe_int_conversion (pyStr i) d = i :=
  safe_int_intRepr i d

lemma pyStr_beq_empty (i : Int) : (pyStr i == "") = false := by
  rw [beq_eq_false_iff_ne]
  intro h
  have : intRepr i = ([] : List Char) := congrArg String.data h
  exact intRepr_ne_nil i this

lemma matchesKey_extKey {plu dept : Int} {r : Record}
    (h : ProductSynchronizer.matchesKey plu dept r = true) : extKey r = (plu, dept) := by
  unfold ProductSynchronizer.matchesKey at h
  cases hpt : lookupLast r.fields "PLU Number" with
  | none => rw [hpt] at h; simp at h
  | some pt =>
    cases hdt : lookupLast r.fields "Department ID" with
    | none => rw [hpt, hdt] at h; simp at h
    | some dt =>
      rw [hpt, hdt] at h
      simp only [Bool.and_eq_true, beq_iff_eq] at h
      obtain ⟨⟨⟨hpt1, hdt1⟩, hstrip1⟩, hstrip2⟩ := h
      unfold extKey XMLManager.fGet
      rw [hpt, hdt]
      simp only [Option.map_some', Option.getD_some]
      have e1 : pyStrip pt = ⟨intRepr plu⟩ := congrArg String.mk hstrip1
      have e2 : pyStrip dt = ⟨intRepr dept⟩ := congrArg String.mk hstrip2
      rw [e1, e2, safe_int_intRepr, safe_int_intRepr]

lemma matchesKey_unique {A B : Int × Int} {r : Record}
    (hA : ProductSynchronizer.matchesKey A.1 A.2 r = true)
    (hB : ProductSynchronizer.matchesKey B.1 B.2 r = true) : A = B := by
  have h1 := matchesKey_extKey hA
  have h2 := matchesKey_extKey hB
  rw [h1] at h2
  have hx : A.1 = B.1 := congrArg Prod.fst h2
  have hy : A.2 = B.2 := congrArg Prod.snd h2
  exact Prod.ext hx hy

lemma matchesKey_recTruthy {A : Int × Int} {r : Record} (hA1 : A.1 ≠ 0) (hA2 : A.2 ≠ 0)
    (h : ProductSynchronizer.matchesKey A.1 A.2 r = true) :
    (recTruthy r && (extKey r == A)) = true := by
  have he := matchesKey_extKey h
  unfold recTruthy
  rw [he]
  simp [hA1, hA2]

lemma default_lookup_PLU (p : Product) (plu dept : Int) (ts : String) :
    lookupLast (ProductSynchronizer.defaultFieldValues p plu dept ts) "PLU Number" =
      some (pyStr plu) := rfl

lemma default_lookup_Dept (p : Product) (plu dept : Int) (ts : String) :
    lookupLast (ProductSynchronizer.defaultFieldValues p plu dept ts) "Department ID" =
      some (pyStr dept) := rfl

lemma default_matchesKey (p : Product) (plu dept : Int) (ts : String) :
    ProductSynchronizer.matchesKey plu dept
      ⟨ProductSynchronizer.defaultFieldValues p plu dept ts⟩ = true := by
  unfold ProductSynchronizer.matchesKey
  rw [show (⟨ProductSynchronizer.defaultFieldValues p plu dept ts⟩ : Record).fields =
    ProductSynchronizer.defaultFieldValues p plu dept ts from rfl]
  rw [default_lookup_PLU, default_lookup_Dept]
  dsimp only
  rw [pyStr_beq_empty, pyStr_beq_empty]
  have e1 : stripL (pyStr plu).data = intRepr plu := stripL_intRepr plu
  have e2 : stripL (pyStr dept).data = intRepr dept := stripL_intRepr dept
  rw [e1, e2]
  simp

lemma default_agree (p : Product) (plu dept : Int) (ts : String) :
    agreeB p ⟨ProductSynchronizer.defaultFieldValues p plu dept ts⟩ = true := by
  unfold agreeB ProductSynchronizer.updateMappings
  simp only [List.all_cons, List.all_nil, Bool.and_eq_true, Bool.and_true]
  refine ⟨?_, ?_, ?_, ?_, ?_, ?_, ?_, ?_, ?_⟩ <;> exact beq_self_eq_true _

lemma default_hasTS (p : Product) (plu dept : Int) (ts : String) :
    hasTS ⟨ProductSynchronizer.defaultFieldValues p plu dept ts⟩ = true := rfl

lemma default_extKey (p : Product) (plu dept : Int) (ts : String) :
    extKey ⟨ProductSynchronizer.defaultFieldValues p plu dept ts⟩ = (plu, dept) := by
  unfold extKey XMLManager.fGet
  rw [default_lookup_PLU, default_lookup_Dept]
  simp only [Option.map_some', Option.getD_some]
  rw [pyStrip_pyStr, pyStrip_pyStr, safe_int_pyStr, safe_int_pyStr]

/-! ### The keyed dicts -/

lemma bool_eq_of_iff {a b : Bool} (h : a = true ↔ b = true) : a = b := by
  cases a <;> cases b <;> simp_all

lemma extractRecord_keyOf (r : Record) (ts : String) :
    ProductSynchronizer.keyOf (XMLManager.extractRecord r ts) = extKey r := rfl

lemma extractRecord_truthy (r : Record) (ts : String) :
    ProductSynchronizer.truthyKey (XMLManager.extractRecord r ts) = recTruthy r := rfl

lemma dictHas_iff_mem {d : List ((Int × Int) × Product)} {k : Int × Int} :
    ProductSynchronizer.dictHas d k = true ↔ k ∈ d.map Prod.fst := by
  unfold ProductSynchronizer.dictHas
  rw [List.any_eq_true]
  constructor
  · rintro ⟨e, he, hbeq⟩
    have he1 : e.1 = k := by simpa using hbeq
    exact List.mem_map.mpr ⟨e, he, he1⟩
  · intro h
    obtain ⟨e, he, hk⟩ := List.mem_map.mp h
    exact ⟨e, he, by simp [hk]⟩

lemma dictInsert_map_fst_of_has {acc : List ((Int × Int) × Product)} {k : Int × Int}
    {v : Product} (h : ProductSynchronizer.dictHas acc k = true) :
    (ProductSynchronizer.dictInsert acc k v).map Prod.fst = acc.map Prod.fst := by
  have h' : (acc.any (fun e => e.1 == k)) = true := h
  unfold ProductSynchronizer.dictInsert
  rw [if_pos h']
  rw [List.map_map]
  refine List.map_congr_left ?_
  intro e _
  by_cases he : e.1 = k
  · simp [he]
  · simp [he]

lemma dictInsert_map_fst_of_not {acc : List ((Int × Int) × Product)} {k : Int × Int}
    {v : Product} (h : ProductSynchronizer.dictHas acc k = false) :
    (ProductSynchronizer.dictInsert acc k v).map Prod.fst = acc.map Prod.fst ++ [k] := by
  have h' : (acc.any (fun e => e.1 == k)) = false := h
  unfold ProductSynchronizer.dictInsert
  rw [if_neg (by simp [h'])]
  simp

lemma dictHas_not_mem {d : List ((Int × Int) × Product)} {k : Int × Int}
    (h : ProductSynchronizer.dictHas d k = false) : k ∉ d.map Prod.fst := by
  intro hc
  rw [← dictHas_iff_mem] at hc
  rw [h] at hc
  exact absurd hc (by simp)

lemma foldl_dictInsert_spec (l : List Product) :
    ∀ acc : List ((Int × Int) × Product), (acc.map Prod.fst).Nodup →
    ((l.foldl (fun acc p => ProductSynchronizer.dictInsert acc
        (ProductSynchronizer.keyOf p) p) acc).map Prod.fst).Nodup ∧
      ∀ k, ProductSynchronizer.dictHas
          (l.foldl (fun acc p => ProductSynchronizer.dictInsert acc
            (ProductSynchronizer.keyOf p) p) acc) k =
        (ProductSynchronizer.dictHas acc k ||
          l.any (fun p => ProductSynchronizer.keyOf p == k)) := by
  induction l with
  | nil =>
    intro acc hnd
    constructor
    · simpa using hnd
    · intro k
      simp
  | cons p rest ih =>
    intro acc hnd
    rw [List.foldl_cons]
    have hstep : ∀ k, ProductSynchronizer.dictHas
        (ProductSynchronizer.dictInsert acc (ProductSynchronizer.keyOf p) p) k =
        (ProductSynchronizer.dictHas acc k || (ProductSynchronizer.keyOf p == k)) := by
      intro k
      rcases Bool.eq_false_or_eq_true
        (ProductSynchronizer.dictHas acc (ProductSynchronizer.keyOf p)) with hh | hh
      · apply bool_eq_of_iff
        constructor
        · intro hm
          have hm' := dictHas_iff_mem.mp hm
          rw [dictInsert_map_fst_of_has hh] at hm'
          simp [dictHas_iff_mem.mpr hm']
        · intro hm
          rcases (by simpa using hm : ProductSynchronizer.dictHas acc k = true ∨
              ProductSynchronizer.keyOf p = k) with hm | hm
          · apply dictHas_iff_mem.mpr
            rw [dictInsert_map_fst_of_has hh]
            exact dictHas_iff_mem.mp hm
          · subst hm
            apply dictHas_iff_mem.mpr
            rw [dictInsert_map_fst_of_has hh]
            exact dictHas_iff_mem.mp hh
      · apply bool_eq_of_iff
        constructor
        · intro hm
          have hm' := dictHas_iff_mem.mp hm
          rw [dictInsert_map_fst_of_not hh] at hm'
          rcases List.mem_append.mp hm' with hm' | hm'
          · simp [dictHas_iff_mem.mpr hm']
          · simp only [List.mem_singleton] at hm'
            subst hm'
            simp
        · intro hm
          rcases (by simpa using hm : ProductSynchronizer.dictHas acc k = true ∨
              ProductSynchronizer.keyOf p = k) with hm | hm
          · apply dictHas_iff_mem.mpr
            rw [dictInsert_map_fst_of_not hh]
            exact List.mem_append.mpr (Or.inl (dictHas_iff_mem.mp hm))
          · subst hm
            apply dictHas_iff_mem.mpr
            rw [dictInsert_map_fst_of_not hh]
            simp
    have hnd' : ((ProductSynchronizer.dictInsert acc (ProductSynchronizer.keyOf p) p).map
        Prod.fst).Nodup := by
      rcases Bool.eq_false_or_eq_true
        (ProductSynchronizer.dictHas acc (ProductSynchronizer.keyOf p)) with hh | hh
      · rw [dictInsert_map_fst_of_has hh]
        exact hnd
      · rw [dictInsert_map_fst_of_not hh]
        rw [List.nodup_append]
        exact ⟨hnd, List.nodup_singleton _, by
          intro x hx hy
          simp only [List.mem_singleton] at hy
          subst hy
          exact dictHas_not_mem hh hx⟩
    obtain ⟨h1, h2⟩ := ih _ hnd'
    refine ⟨h1, ?_⟩
    intro k
    rw [h2 k, hstep k]
    cases ProductSynchronizer.dictHas acc k <;> simp

lemma buildDict_nodup (ps : List Product) :
    ((ProductSynchronizer.buildDict ps).map Prod.fst).Nodup :=
  (foldl_dictInsert_spec _ [] (by simp)).1

lemma buildDict_dictHas (ps : List Product) (k : Int × Int) :
    ProductSynchronizer.dictHas (ProductSynchronizer.buildDict ps) k =
      (ps.filter ProductSynchronizer.truthyKey).any
        (fun p => ProductSynchronizer.keyOf p == k) := by
  unfold ProductSynchronizer.buildDict
  rw [(foldl_dictInsert_spec _ [] (by simp)).2 k]
  simp [ProductSynchronizer.dictHas]

lemma dictHas_buildDict_extract (tr : XMLTree) (ts : String) (A : Int × Int) :
    ProductSynchronizer.dictHas
        (ProductSynchronizer.buildDict (XMLManager.extractProducts tr ts)) A =
      memKey tr A := by
  rw [buildDict_dictHas]
  apply bool_eq_of_iff
  unfold memKey
  rw [List.any_eq_true, List.any_eq_true]
  constructor
  · rintro ⟨p, hp, hbeq⟩
    rw [List.mem_filter] at hp
    obtain ⟨hpm, hpt⟩ := hp
    obtain ⟨r, hr, rfl⟩ := List.mem_map.mp hpm
    refine ⟨r, hr, ?_⟩
    rw [Bool.and_eq_true]
    exact ⟨hpt, hbeq⟩
  · rintro ⟨r, hr, hb⟩
    rw [Bool.and_eq_true] at hb
    exact ⟨XMLManager.extractRecord r ts,
      List.mem_filter.mpr ⟨List.mem_map_of_mem _ hr, hb.1⟩, hb.2⟩

lemma buildDict_entry_truthy {ps : List Product} :
    ∀ e ∈ ProductSynchronizer.buildDict ps, e.1.1 ≠ 0 ∧ e.1.2 ≠ 0 := by
  unfold ProductSynchronizer.buildDict
  have main : ∀ (l : List Product) (acc : List ((Int × Int) × Product)),
      (∀ e ∈ acc, e.1.1 ≠ 0 ∧ e.1.2 ≠ 0) → (∀ p ∈ l, ProductSynchronizer.truthyKey p = true) →
      ∀ e ∈ l.foldl (fun acc p => ProductSynchronizer.dictInsert acc
        (ProductSynchronizer.keyOf p) p) acc, e.1.1 ≠ 0 ∧ e.1.2 ≠ 0 := by
    intro l
    induction l with
    | nil => intro acc hacc _ e he; exact hacc e he
    | cons p rest ih =>
      intro acc hacc hl e he
      rw [List.foldl_cons] at he
      refine ih _ ?_ (fun q hq => hl q (List.mem_cons_of_mem _ hq)) e he
      intro e' he'
      have hp := hl p (by simp)
      have hkey : (ProductSynchronizer.keyOf p).1 ≠ 0 ∧ (ProductSynchronizer.keyOf p).2 ≠ 0 := by
        unfold ProductSynchronizer.truthyKey at hp
        simp only [Bool.and_eq_true, Bool.not_eq_true', beq_eq_false_iff_ne, ne_eq] at hp
        exact ⟨hp.1, hp.2⟩
      unfold ProductSynchronizer.dictInsert at he'
      split at he'
      · rw [List.mem_map] at he'
        obtain ⟨x, hx, hxe⟩ := he'
        by_cases hxk : x.1 = ProductSynchronizer.keyOf p
        · rw [if_pos hxk] at hxe
          subst hxe
          exact hkey
        · rw [if_neg hxk] at hxe
          subst hxe
          exact hacc x hx
      · rcases List.mem_append.mp he' with he' | he'
        · exact hacc e' he'
        · simp only [List.mem_singleton] at he'
          subst he'
          exact hkey
  intro e he
  exact main _ [] (by simp) (fun p hp => (List.mem_filter.mp hp).2) e he

/-! ### Strip / filter / replace interaction (for the price normalizer) -/

lemma mem_dropWhile_of {l : List Char} {c : Char} {p : Char → Bool}
    (hm : c ∈ l) (hc : p c = false) : c ∈ l.dropWhile p := by
  induction l with
  | nil => simp at hm
  | cons x xs ih =>
    rcases Bool.eq_false_or_eq_true (p x) with hp | hp
    · rw [List.dropWhile_cons, hp, if_pos rfl]
      rcases List.mem_cons.mp hm with hm | hm
      · subst hm
        rw [hc] at hp
        exact absurd hp (by simp)
      · exact ih hm
    · rw [List.dropWhile_cons, hp, if_neg (by simp)]
      exact hm

lemma mem_stripL_of {l : List Char} {c : Char} (hm : c ∈ l) (hc : isPySpace c = false) :
    c ∈ stripL l := by
  unfold stripL stripEnd
  rw [List.mem_reverse]
  exact mem_dropWhile_of (List.mem_reverse.mpr (mem_dropWhile_of hm hc)) hc

lemma mem_of_mem_stripL {l : List Char} {c : Char} (hm : c ∈ stripL l) : c ∈ l := by
  unfold stripL stripEnd at hm
  rw [List.mem_reverse] at hm
  have h1 := (List.dropWhile_sublist (l := (l.dropWhile isPySpace).reverse)
    (p := isPySpace)).mem hm
  rw [List.mem_reverse] at h1
  exact (List.dropWhile_sublist (l := l) (p := isPySpace)).mem h1

lemma stripL_nil_all_space {l : List Char} (h : stripL l = []) :
    ∀ c ∈ l, isPySpace c = true := by
  intro c hc
  rcases Bool.eq_false_or_eq_true (isPySpace c) with hsp | hsp
  · exact hsp
  · have := mem_stripL_of hc hsp
    rw [h] at this
    simp at this

lemma dropWhile_map_char (f : Char → Char) (p : Char → Bool) (l : List Char)
    (h : ∀ c, p (f c) = p c) : (l.map f).dropWhile p = (l.dropWhile p).map f := by
  induction l with
  | nil => rfl
  | cons x xs ih =>
    rw [List.map_cons, List.dropWhile_cons, List.dropWhile_cons, h x]
    rcases Bool.eq_false_or_eq_true (p x) with hp | hp
    · rw [hp, if_pos rfl, if_pos rfl]
      exact ih
    · rw [hp, if_neg (by simp), if_neg (by simp), List.map_cons]

lemma stripEnd_map_char (f : Char → Char) (l : List Char)
    (h : ∀ c, isPySpace (f c) = isPySpace c) :
    stripEnd (l.map f) = (stripEnd l).map f := by
  unfold stripEnd
  rw [← List.map_reverse, dropWhile_map_char f isPySpace _ h, ← List.map_reverse]

lemma stripL_map_char (f : Char → Char) (l : List Char)
    (h : ∀ c, isPySpace (f c) = isPySpace c) :
    stripL (l.map f) = (stripL l).map f := by
  unfold stripL
  rw [dropWhile_map_char f isPySpace _ h, stripEnd_map_char f _ h]

lemma filter_map_char (f : Char → Char) (p : Char → Bool) (l : List Char)
    (h : ∀ c, p (f c) = p c) : (l.map f).filter p = (l.filter p).map f := by
  induction l with
  | nil => rfl
  | cons x xs ih =>
    rw [List.map_cons, List.filter_cons, List.filter_cons, h x]
    rcases Bool.eq_false_or_eq_true (p x) with hp | hp
    · rw [hp, if_pos rfl, if_pos rfl, List.map_cons, ih]
    · rw [hp, if_neg (by simp), if_neg (by simp)]
      exact ih

lemma contains_iff_mem {l : List Char} {c : Char} : l.contains c = true ↔ c ∈ l := by
  induction l with
  | nil => simp
  | cons x xs ih =>
    rw [List.contains_cons]
    simp only [Bool.or_eq_true, beq_iff_eq, List.mem_cons, ih]

lemma contains_false_of_not_mem {l : List Char} {c : Char} (h : c ∉ l) :
    l.contains c = false := by
  rcases Bool.eq_false_or_eq_true (l.contains c) with hc | hc
  · exact absurd (contains_iff_mem.mp hc) h
  · exact hc

/-! ### Claim C7 -/

/-- C7: for every raw price string that contains a comma and no dot,
`normalize_price` returns the same two-decimal result as on the string
with every comma replaced by a dot; in particular `"12,50"` and
`"12.50"` both normalize to `"12.50"`. -/
theorem claim_C7_price_comma :
    (∀ s : String, ',' ∈ s.data → '.' ∉ s.data →
      DataValidator.normalize_price s = DataValidator.normalize_price (replaceCommaDot s)) ∧
    DataValidator.normalize_price "12,50" = "12.50" ∧
    DataValidator.normalize_price "12.50" = "12.50" := by
  refine ⟨?_, by decide, by decide⟩
  intro s hcomma hdot
  have hrepsp : ∀ c : Char,
      isPySpace (if c = ',' then '.' else c) = isPySpace c := by
    intro c
    by_cases hc : c = ','
    · subst hc
      rw [if_pos rfl]
      decide
    · rw [if_neg hc]
  have hrepkeep : ∀ c : Char,
      DataValidator.keepPriceChar (if c = ',' then '.' else c) = DataValidator.keepPriceChar c := by
    intro c
    by_cases hc : c = ','
    · subst hc
      rw [if_pos rfl]
      decide
    · rw [if_neg hc]
  have hsdata : (replaceCommaDot s).data = s.data.map (fun c => if c = ',' then '.' else c) := rfl
  have hstrip_ne : ¬ (stripL s.data = []) := by
    intro h
    have := stripL_nil_all_space h ',' hcomma
    exact absurd this (by decide)
  have hclean : DataValidator.cleanedPrice (replaceCommaDot s).data =
      (DataValidator.cleanedPrice s.data).map (fun c => if c = ',' then '.' else c) := by
    rw [hsdata]
    unfold DataValidator.cleanedPrice
    rw [stripL_map_char _ _ hrepsp, filter_map_char _ _ _ hrepkeep]
  have hstrip_ne' : ¬ (stripL (replaceCommaDot s).data = []) := by
    rw [hsdata, stripL_map_char _ _ hrepsp]
    intro h
    exact hstrip_ne (List.map_eq_nil_iff.mp h)
  have hcin : ',' ∈ DataValidator.cleanedPrice s.data := by
    unfold DataValidator.cleanedPrice
    exact List.mem_filter.mpr ⟨mem_stripL_of hcomma (by decide), by decide⟩
  have hdnot : '.' ∉ DataValidator.cleanedPrice s.data := by
    intro hc
    unfold DataValidator.cleanedPrice at hc
    exact hdot (mem_of_mem_stripL (List.mem_filter.mp hc).1)
  have hswapS : DataValidator.commaSwapped (DataValidator.cleanedPrice s.data) =
      (DataValidator.cleanedPrice s.data).map (fun c => if c = ',' then '.' else c) := by
    unfold DataValidator.commaSwapped
    rw [contains_iff_mem.mpr hcin, contains_false_of_not_mem hdnot]
    simp
  have hnocomma : ',' ∉ (DataValidator.cleanedPrice s.data).map
      (fun c => if c = ',' then '.' else c) := by
    intro hc
    obtain ⟨x, _, hx⟩ := List.mem_map.mp hc
    by_cases hxc : x = ','
    · rw [if_pos hxc] at hx
      exact absurd hx (by decide)
    · rw [if_neg hxc] at hx
      exact hxc hx
  have hswapS' : DataValidator.commaSwapped (DataValidator.cleanedPrice (replaceCommaDot s).data) =
      (DataValidator.cleanedPrice s.data).map (fun c => if c = ',' then '.' else c) := by
    rw [hclean]
    unfold DataValidator.commaSwapped
    rw [contains_false_of_not_mem hnocomma]
    rw [if_neg (by simp)]
  unfold DataValidator.normalize_price
  rw [if_neg hstrip_ne, if_neg hstrip_ne', hswapS, hswapS']

/-- C7 witness: the universal part applied at the concrete input `"7,25"`. -/
theorem claim_C7_price_comma_witness :
    DataValidator.normalize_price "7,25" = DataValidator.normalize_price (replaceCommaDot "7,25") :=
  claim_C7_price_comma.1 "7,25" (by decide) (by decide)

/-! ### Claim C8 -/

lemma string_mk_ne_empty {l : List Char} (h : l ≠ []) : (⟨l⟩ : String) ≠ "" := by
  intro he
  exact h (congrArg String.data he)

lemma isDigitC_not_space {c : Char} (h : isDigitC c = true) : isPySpace c = false := by
  rcases Bool.eq_false_or_eq_true (isPySpace c) with hs | hs
  · exfalso
    unfold isPySpace at hs
    simp only [Bool.or_eq_true, decide_eq_true_eq] at hs
    rcases hs with ((((h1 | h1) | h1) | h1) | h1) | h1 <;>
      (subst h1; exact absurd h (by decide))
  · exact hs

lemma normalize_ean_ne_empty (s : String) : DataValidator.normalize_ean s ≠ "" := by
  unfold DataValidator.normalize_ean
  split
  · decide
  · split
    · rename_i n _
      exact string_mk_ne_empty (intRepr_ne_nil n)
    · split
      · decide
      · rename_i hne
        exact string_mk_ne_empty hne

/-- C8: both normalizers truncate scientific notation (`"2.52E+12"` maps to
`"2520000000000"`); on every float-parse failure `DataValidator.normalize_ean`
keeps only the digits with `"0"` substituted for an empty residue, so it never
returns the empty string — but the `sync_xml.py` variant returns the bare
digit filter, which can be empty. -/
theorem claim_C8_normalize_ean :
    DataValidator.normalize_ean "2.52E+12" = "2520000000000" ∧
    syncXml.normalize_ean "2.52E+12" = "2520000000000" ∧
    (∀ s : String, pyFloatToInt s = none →
      DataValidator.normalize_ean s =
        if s.data.filter isDigitC = [] then "0" else ⟨s.data.filter isDigitC⟩) ∧
    (∀ s : String, DataValidator.normalize_ean s ≠ "") ∧
    (∀ s : String, s.data ≠ [] → pyFloatToInt s = none →
      syncXml.normalize_ean s = ⟨s.data.filter isDigitC⟩) := by
  refine ⟨by decide, by decide, ?_, fun s => normalize_ean_ne_empty s, ?_⟩
  · intro s hp
    unfold DataValidator.normalize_ean
    rw [hp]
    split
    · rename_i hnil
      have hfil : s.data.filter isDigitC = [] := by
        rw [List.filter_eq_nil_iff]
        intro c hc hdc
        have hsp := stripL_nil_all_space hnil c hc
        rw [isDigitC_not_space hdc] at hsp
        exact absurd hsp (by decide)
      rw [if_pos hfil]
    · rfl
  · intro s hne hp
    unfold syncXml.normalize_ean
    rw [if_neg hne, hp]

/-- C8 counterexample: on `"abc"` the `sync_xml.py` normalizer returns the
empty string, not `"0"`. -/
theorem claim_C8_counterexample :
    syncXml.normalize_ean "abc" = "" ∧ ("" : String) ≠ "0" := by
  exact ⟨by decide, by decide⟩

/-! ### Claim C10 -/

/-- C10: `normalize_ean` is not the identity on digit-only strings: the
17-digit input `"99999999999999999"` (above `2^53`) comes back as the
different digit string `"100000000000000000"`, because the float round
happens before the digits-only fallback could apply. -/
theorem claim_C10_large_ean :
    DataValidator.normalize_ean "99999999999999999" = "100000000000000000" ∧
    ("99999999999999999" : String) ≠ "100000000000000000" ∧
    (∀ c ∈ ("99999999999999999" : String).data, isDigitC c = true) := by
  exact ⟨by decide, by decide, by decide⟩

/-! ### Claim C2 -/

/-- C2: the loader skips every row whose parsed Product Type lies outside
`{0,1,2,4,6,9,99}`, and values in the enum are accepted; `3`, `5`, `-1` are
rejected — but a non-numeric Product Type is NOT rejected: `int()` failure
falls back to the default `0`, which is in the enum, so the row is kept. -/
theorem claim_C2_product_type :
    (∀ (row : List (String × String)) (ts : String),
      ([0, 1, 2, 4, 6, 9, 99] : List Int).contains
          (DataValidator.safe_int_conversion (CSVLoader.rowGet row "Product Type" "") 0) = false →
      CSVLoader.processRow row ts = none) ∧
    ((CSVLoader.processRow (c2Row "0") "T").isSome = true ∧
     (CSVLoader.processRow (c2Row "1") "T").isSome = true ∧
     (CSVLoader.processRow (c2Row "2") "T").isSome = true ∧
     (CSVLoader.processRow (c2Row "4") "T").isSome = true ∧
     (CSVLoader.processRow (c2Row "6") "T").isSome = true ∧
     (CSVLoader.processRow (c2Row "9") "T").isSome = true ∧
     (CSVLoader.processRow (c2Row "99") "T").isSome = true) ∧
    (CSVLoader.processRow (c2Row "3") "T" = none ∧
     CSVLoader.processRow (c2Row "5") "T" = none ∧
     CSVLoader.processRow (c2Row "-1") "T" = none) ∧
    ((CSVLoader.processRow (c2Row "abc") "T").isSome = true ∧
     DataValidator.safe_int_conversion "abc" 0 = 0) := by
  refine ⟨?_, by decide, by decide, by decide⟩
  intro row ts h
  simp only [CSVLoader.processRow, h, Bool.not_false, eq_self_iff_true, if_true, ite_self]

/-- C2 counterexample: a row whose Product Type text is the non-numeric
`"abc"` is accepted by the loader (the claim says it must be rejected). -/
theorem claim_C2_counterexample :
    (CSVLoader.processRow (c2Row "abc") "T").isSome = true := by decide

/-! ### Claim C3 -/

lemma processDeletions_fields (csvD : List ((Int × Int) × Product)) :
    ∀ (xmlD : List ((Int × Int) × Product)) (st : Stats),
      (processDeletions csvD xmlD st).deleted =
        st.deleted + (xmlD.filter (fun e => !dictHas csvD e.1)).length ∧
      (processDeletions csvD xmlD st).added = st.added ∧
      (processDeletions csvD xmlD st).updated = st.updated ∧
      (processDeletions csvD xmlD st).errors = st.errors := by
  intro xmlD
  induction xmlD with
  | nil =>
    intro st
    exact ⟨rfl, rfl, rfl, rfl⟩
  | cons e rest ih =>
    intro st
    unfold processDeletions
    unfold processDeletions at ih
    simp only [List.foldl_cons, List.filter_cons]
    rcases Bool.eq_false_or_eq_true (dictHas csvD e.1) with h | h
    · rw [if_pos h]
      have hb : (!dictHas csvD e.1) = false := by rw [h]; rfl
      rw [hb]
      simp only [Bool.false_eq_true, if_false]
      exact ih st
    · rw [if_neg (by simp [h])]
      have hb : (!dictHas csvD e.1) = true := by rw [h]; rfl
      rw [hb]
      simp only [if_true]
      obtain ⟨h1, h2, h3, h4⟩ := ih { st with deleted := st.deleted + 1 }
      refine ⟨?_, h2, h3, h4⟩
      rw [h1]
      simp only [List.length_cons]
      omega

lemma foldl_procItem_fst_indep (xmlD : List ((Int × Int) × Product)) (ts : String) :
    ∀ (l : List ((Int × Int) × Product)) (tr : XMLTree) (st st' : Stats),
      (l.foldl (procItem xmlD ts) (tr, st)).1 =
      (l.foldl (procItem xmlD ts) (tr, st')).1 := by
  intro l
  induction l with
  | nil =>
    intro tr st st'
    rfl
  | cons e rest ih =>
    intro tr st st'
    simp only [List.foldl_cons]
    unfold procItem
    dsimp only
    rcases Bool.eq_false_or_eq_true (dictHas xmlD e.1) with h | h
    · rw [if_pos h, if_pos h]
      exact ih _ _ _
    · rw [if_neg (by simp [h]), if_neg (by simp [h])]
      cases hadd : addNewProduct e.1.1 e.1.2 e.2 ts tr with
      | some tr2 =>
        dsimp only
        exact ih _ _ _
      | none =>
        dsimp only
        exact ih _ _ _

/-- C3: deletion processing is report-only.  The deletion pass touches only
the statistics: it adds to `deleted` exactly the number of XML-dict entries
whose key is absent from the CSV dict (one per key — the XML dict has no
duplicate keys) and leaves the other counters alone; and the tree produced
by `sync` is exactly the tree of the update/add fold started from untouched
statistics, so the deletion pass never removes or changes anything in the
tree. -/
theorem claim_C3_deletions :
    (∀ (csvD xmlD : List ((Int × Int) × Product)) (st : Stats),
      (processDeletions csvD xmlD st).deleted =
        st.deleted + (xmlD.filter (fun e => !dictHas csvD e.1)).length ∧
      (processDeletions csvD xmlD st).added = st.added ∧
      (processDeletions csvD xmlD st).updated = st.updated ∧
      (processDeletions csvD xmlD st).errors = st.errors) ∧
    (∀ ps : List Product, ((buildDict ps).map Prod.fst).Nodup) ∧
    (∀ (csv xml : List Product) (tr : XMLTree) (ts : String),
      (sync csv xml tr ts).1 =
        ((buildDict csv).foldl (procItem (buildDict xml) ts) (tr, Stats.zero)).1) := by
  refine ⟨processDeletions_fields, buildDict_nodup, ?_⟩
  intro csv xml tr ts
  exact foldl_procItem_fst_indep (buildDict xml) ts (buildDict csv) tr _ _

/-! ### Claim C5 -/

lemma lookupLast_writeField_same (fs : List (String × String)) (col v : String) :
    lookupLast (writeField fs col v) col = some v := by
  unfold writeField
  cases h : lookupLast fs col with
  | some t =>
    dsimp only
    rw [lookupLast_setLast_same, h]
    rfl
  | none =>
    dsimp only
    rw [lookupLast_append_single, if_pos rfl]

lemma lookupLast_writeField_ne (fs : List (String × String)) (col v : String) {c : String}
    (hne : c ≠ col) : lookupLast (writeField fs col v) c = lookupLast fs c := by
  unfold writeField
  cases h : lookupLast fs col with
  | some t =>
    dsimp only
    rw [lookupLast_setLast_ne _ _ hne]
  | none =>
    dsimp only
    rw [lookupLast_append_single, if_neg hne]

lemma bandPriceStep_price {fs : List (String × String)} (np : String) {t : String}
    (ht : lookupLast fs "Retail Price (1st)" = some t) :
    lookupLast (bandPriceStep np fs) "Retail Price (1st)" =
      some (if (if t = "" then "0" else t) ≠ np then np else t) := by
  unfold bandPriceStep
  rw [ht]
  dsimp only
  by_cases h2 : (if t = "" then "0" else t) ≠ np
  · rw [if_pos h2, if_pos h2, lookupLast_setLast_same, ht]
    rfl
  · rw [if_neg h2, if_neg h2, ht]

lemma bandPriceStep_ne {fs : List (String × String)} {np c : String}
    (hne : c ≠ "Retail Price (1st)") :
    lookupLast (bandPriceStep np fs) c = lookupLast fs c := by
  unfold bandPriceStep
  cases h : lookupLast fs "Retail Price (1st)" with
  | some t =>
    dsimp only
    by_cases h2 : (if t = "" then "0" else t) ≠ np
    · rw [if_pos h2, lookupLast_setLast_ne _ _ hne]
    · rw [if_neg h2]
  | none => dsimp only

lemma bandStamp_TS (np ts : String) (b : Record) :
    lookupLast (bandStamp np ts b).fields "_TS" = some ts := by
  show lookupLast (writeField (writeField (bandPriceStep np b.fields) "_TS" ts) "_CF" "1")
      "_TS" = some ts
  rw [lookupLast_writeField_ne _ _ _ (by decide), lookupLast_writeField_same]

lemma bandStamp_CF (np ts : String) (b : Record) :
    lookupLast (bandStamp np ts b).fields "_CF" = some "1" :=
  lookupLast_writeField_same _ _ _

lemma bandStamp_price {b : Record} (np ts : String) {t : String}
    (ht : lookupLast b.fields "Retail Price (1st)" = some t) :
    lookupLast (bandStamp np ts b).fields "Retail Price (1st)" =
      some (if (if t = "" then "0" else t) ≠ np then np else t) := by
  show lookupLast (writeField (writeField (bandPriceStep np b.fields) "_TS" ts) "_CF" "1")
      "Retail Price (1st)" = _
  rw [lookupLast_writeField_ne _ _ _ (by decide), lookupLast_writeField_ne _ _ _ (by decide),
    bandPriceStep_price np ht]

lemma bandStamp_frame {np ts c : String} (b : Record) (h1 : c ≠ "Retail Price (1st)")
    (h2 : c ≠ "_TS") (h3 : c ≠ "_CF") :
    lookupLast (bandStamp np ts b).fields c = lookupLast b.fields c := by
  show lookupLast (writeField (writeField (bandPriceStep np b.fields) "_TS" ts) "_CF" "1") c = _
  rw [lookupLast_writeField_ne _ _ _ h3, lookupLast_writeField_ne _ _ _ h2, bandPriceStep_ne h1]

lemma tablesUpdFirst_of_flag_false {tname : String} {pred : Record → Bool}
    {f : Record → Record} {tbs : List Table}
    (h : (tablesUpdFirst tname pred f tbs).2 = false) :
    (tablesUpdFirst tname pred f tbs).1 = tbs := by
  induction tbs with
  | nil => rfl
  | cons t ts ih =>
    by_cases hname : t.name = tname
    · rcases Bool.eq_false_or_eq_true (updFirst pred f t.records).2 with hflag | hflag
      · rw [tablesUpdFirst, if_pos hname, if_pos hflag] at h
        exact absurd h (by simp)
      · rw [tablesUpdFirst, if_pos hname, if_neg (by simp [hflag])] at h ⊢
        rw [ih h]
    · rw [tablesUpdFirst, if_neg hname] at h ⊢
      rw [ih h]

/-- C5: when the mapped-column comparison did not flag a price change, the
band table is untouched; `_update_item_in_band` with no matching band
record leaves the whole tree unchanged (no band record is fabricated);
with a matching record it rewrites exactly the first match — everything
before it fails the key test, everything after it and every other table is
kept — and on that record it writes the price (when the field is present,
its text read with `""` as `"0"`, and only when it differs), stamps `_TS`
with the timestamp and `_CF` with `"1"`, and leaves every other column
alone. -/
theorem claim_C5_band_update :
    (∀ (plu dept : Int) (p : Product) (ts : String) (tr : XMLTree) (r : Record),
      (itemRecords tr).find? (matchesKey plu dept) = some r →
      (recUpdate p ts r).2.2 = false →
      bandRecords (updateExistingProduct plu dept p ts tr).1 = bandRecords tr) ∧
    (∀ (plu dept : Int) (np ts : String) (tr : XMLTree),
      (bandRecords tr).find? (matchesKey plu dept) = none →
      updateItemInBand plu dept np ts tr = tr) ∧
    (∀ (plu dept : Int) (np ts : String) (tr : XMLTree) (b : Record),
      (bandRecords tr).find? (matchesKey plu dept) = some b →
      ∃ l₁ l₂, bandRecords tr = l₁ ++ b :: l₂ ∧
        (∀ x ∈ l₁, matchesKey plu dept x = false) ∧
        matchesKey plu dept b = true ∧
        bandRecords (updateItemInBand plu dept np ts tr) = l₁ ++ bandStamp np ts b :: l₂ ∧
        (∀ tn, tn ≠ "ITEM in Band" →
          allRecs tn (updateItemInBand plu dept np ts tr) = allRecs tn tr)) ∧
    (∀ (np ts : String) (b : Record),
      lookupLast (bandStamp np ts b).fields "_TS" = some ts ∧
      lookupLast (bandStamp np ts b).fields "_CF" = some "1" ∧
      (∀ t, lookupLast b.fields "Retail Price (1st)" = some t →
        lookupLast (bandStamp np ts b).fields "Retail Price (1st)" =
          some (if (if t = "" then "0" else t) ≠ np then np else t)) ∧
      (∀ c, c ≠ "Retail Price (1st)" → c ≠ "_TS" → c ≠ "_CF" →
        lookupLast (bandStamp np ts b).fields c = lookupLast b.fields c)) := by
  refine ⟨?_, ?_, ?_, ?_⟩
  · intro plu dept p ts tr r hfind hflag
    unfold updateExistingProduct
    rw [hfind]
    dsimp only
    rw [hflag]
    simp only [Bool.false_eq_true, if_false]
    exact tablesUpdFirst_other "ITEM" "ITEM in Band" _ _ tr.tables (by decide)
  · intro plu dept np ts tr hnone
    unfold updateItemInBand
    have hflag : (tablesUpdFirst "ITEM in Band" (matchesKey plu dept)
        (bandStamp np ts) tr.tables).2 = false := by
      rw [(tablesUpdFirst_view "ITEM in Band" (matchesKey plu dept)
            (bandStamp np ts) tr.tables).2,
        show allRecsT "ITEM in Band" tr.tables = bandRecords tr from rfl,
        updFirst_of_find?_none hnone]
    rw [tablesUpdFirst_of_flag_false hflag]
  · intro plu dept np ts tr b hfind
    obtain ⟨l₁, l₂, hdec, hfail, hpred, hupd⟩ :=
      updFirst_of_find?_some (f := bandStamp np ts) hfind
    refine ⟨l₁, l₂, hdec, hfail, hpred, ?_, ?_⟩
    · show allRecsT "ITEM in Band" (tablesUpdFirst "ITEM in Band" (matchesKey plu dept)
        (bandStamp np ts) tr.tables).1 = _
      rw [(tablesUpdFirst_view "ITEM in Band" (matchesKey plu dept)
            (bandStamp np ts) tr.tables).1,
        show allRecsT "ITEM in Band" tr.tables = bandRecords tr from rfl, hupd]
    · intro tn htn
      exact tablesUpdFirst_other "ITEM in Band" tn _ _ tr.tables htn
  · intro np ts b
    exact ⟨bandStamp_TS np ts b, bandStamp_CF np ts b,
      fun t ht => bandStamp_price np ts ht,
      fun c h1 h2 h3 => bandStamp_frame b h1 h2 h3⟩

/-- C5 witness: the no-matching-band-record branch applied to a concrete
tree with an empty band table. -/
theorem claim_C5_band_update_witness :
    updateItemInBand 7 3 "4.50" "T" ⟨[⟨"ITEM in Band", []⟩]⟩ = ⟨[⟨"ITEM in Band", []⟩]⟩ :=
  claim_C5_band_update.2.1 7 3 "4.50" "T" ⟨[⟨"ITEM in Band", []⟩]⟩ (by decide)

/-! ### Claim C6 -/

/-- C6: on a matched `ITEM` record where no mapped column differs
(`agreeB`), the update is the identity when `_TS` is already present, and
exactly the creation of `_TS` when it is missing; either way the `updated`
flag is false, so `procItem` leaves the statistics untouched. -/
theorem claim_C6_no_diff_update :
    (∀ (p : Product) (ts : String) (r : Record),
      agreeB p r = true → hasTS r = true →
      recUpdate p ts r = (r, false, false)) ∧
    (∀ (p : Product) (ts : String) (r : Record),
      agreeB p r = true → lookupLast r.fields "_TS" = none →
      recUpdate p ts r = (⟨r.fields ++ [("_TS", ts)]⟩, false, false)) ∧
    (∀ (plu dept : Int) (p : Product) (ts : String) (tr : XMLTree) (r : Record),
      (itemRecords tr).find? (matchesKey plu dept) = some r →
      agreeB p r = true →
      (updateExistingProduct plu dept p ts tr).2 = false) ∧
    (∀ (xmlD : List ((Int × Int) × Product)) (ts : String) (tr : XMLTree) (st : Stats)
      (e : (Int × Int) × Product),
      dictHas xmlD e.1 = true →
      (updateExistingProduct e.1.1 e.1.2 e.2 ts tr).2 = false →
      (procItem xmlD ts (tr, st) e).2 = st) := by
  refine ⟨fun p ts r ha ht => recUpdate_self ha ht, ?_, ?_, ?_⟩
  · intro p ts r ha hts
    unfold recUpdate applyMappings
    rw [applyMappingsAux_agree (fun cv hcv => List.all_eq_true.mp ha cv hcv)]
    dsimp only
    rw [tsCfStamp_false_of_noTS hts]
  · intro plu dept p ts tr r hfind ha
    unfold updateExistingProduct
    rw [hfind]
    show (recUpdate p ts r).2.1 = false
    unfold recUpdate applyMappings
    rw [applyMappingsAux_agree (fun cv hcv => List.all_eq_true.mp ha cv hcv)]
  · intro xmlD ts tr st e hhas hflag
    unfold procItem
    rw [if_pos hhas]
    dsimp only
    rw [hflag]
    simp

/-- C6 witness: the `_TS`-backfill branch on a concrete record that agrees
with the product and has no `_TS` field. -/
theorem claim_C6_no_diff_update_witness :
    recUpdate
      { plu := 7, name := "Pear", ean := 9, price := "4.50", deptId := 3,
        textArea1 := "", productType := 1, pmm := 2, barcodeFmt := 0, printFmt := 0,
        ts := "T0" } "A1"
      ⟨[("PLU Number", "7"), ("Department ID", "3"), ("Display Text", "Pear"),
        ("EAN Code", "9"), ("Retail Price (1st)", "4.50"), ("Text Area (1)", ""),
        ("Product Type", "1"), ("Price Modifier Multiplier", "2"),
        ("Barcode Format ID", "0"), ("Print Format ID", "0"),
        ("Display Button Text", "Pear")]⟩ =
    (⟨[("PLU Number", "7"), ("Department ID", "3"), ("Display Text", "Pear"),
        ("EAN Code", "9"), ("Retail Price (1st)", "4.50"), ("Text Area (1)", ""),
        ("Product Type", "1"), ("Price Modifier Multiplier", "2"),
        ("Barcode Format ID", "0"), ("Print Format ID", "0"),
        ("Display Button Text", "Pear"), ("_TS", "A1")]⟩, false, false) :=
  claim_C6_no_diff_update.2.1
    { plu := 7, name := "Pear", ean := 9, price := "4.50", deptId := 3,
      textArea1 := "", productType := 1, pmm := 2, barcodeFmt := 0, printFmt := 0,
      ts := "T0" } "A1"
    ⟨[("PLU Number", "7"), ("Department ID", "3"), ("Display Text", "Pear"),
      ("EAN Code", "9"), ("Retail Price (1st)", "4.50"), ("Text Area (1)", ""),
      ("Product Type", "1"), ("Price Modifier Multiplier", "2"),
      ("Barcode Format ID", "0"), ("Print Format ID", "0"),
      ("Display Button Text", "Pear")]⟩ (by decide) (by decide)

/-! ### Claim C9 -/

/-- C9: an update can only create `_TS` and `_CF` on an existing record —
every other field name of the updated record was already there; a mapped
column absent from the record stays absent (it is skipped, not created);
and every column outside the nine mapped ones and `_TS`/`_CF` keeps its
text unchanged. -/
theorem claim_C9_update_frame :
    (∀ (p : Product) (ts : String) (r : Record) (c : String),
      c ∈ (recUpdate p ts r).1.fields.map Prod.fst →
      c ∈ r.fields.map Prod.fst ∨ c = "_TS" ∨ c = "_CF") ∧
    (∀ (p : Product) (ts : String) (r : Record) (c : String),
      c ∈ mappedColNames → lookupLast r.fields c = none →
      lookupLast (recUpdate p ts r).1.fields c = none) ∧
    (∀ (p : Product) (ts : String) (r : Record) (c : String),
      c ∉ mappedColNames → c ≠ "_TS" → c ≠ "_CF" →
      lookupLast (recUpdate p ts r).1.fields c = lookupLast r.fields c) := by
  refine ⟨fun p ts r c h => recUpdate_names h, ?_, fun p ts r c h h1 h2 =>
    recUpdate_lookup_frame p ts r c h h1 h2⟩
  intro p ts r c hc hnone
  rw [lookupLast_eq_none_iff]
  intro hmem
  rcases recUpdate_names hmem with hm | hm | hm
  · exact (lookupLast_eq_none_iff r.fields c).mp hnone hm
  · exact (mappedCols_ne_tscf c hc).1 hm
  · exact (mappedCols_ne_tscf c hc).2 hm

/-! ### Claim C4: the exact-double analysis layer -/

lemma rhe_err (a b : Nat) (hb : 0 < b) :
    (a:ℚ)/b - 1/2 ≤ (rhe a b : ℚ) ∧ (rhe a b : ℚ) ≤ (a:ℚ)/b + 1/2 := by
  have hbq : (0:ℚ) < (b:ℚ) := by exact_mod_cast hb
  have hfr : (a:ℚ)/b = ((a / b : Nat):ℚ) + ((a % b : Nat):ℚ)/b := by
    have hdm : (b:ℚ) * ((a / b : Nat):ℚ) + ((a % b : Nat):ℚ) = (a:ℚ) := by
      exact_mod_cast Nat.div_add_mod a b
    rw [← hdm]
    field_simp
    ring
  have hr0 : (0:ℚ) ≤ ((a % b : Nat):ℚ)/b := by positivity
  have hrb : ((a % b : Nat):ℚ)/b < 1 := by
    rw [div_lt_one hbq]
    exact_mod_cast Nat.mod_lt a hb
  unfold rhe
  dsimp only
  by_cases h1 : 2 * (a % b) < b
  · rw [if_pos h1]
    have hsmall : ((a % b : Nat):ℚ)/b < 1/2 := by
      rw [div_lt_div_iff hbq (by norm_num)]
      have : 2 * ((a % b : Nat):ℚ) < (b:ℚ) := by exact_mod_cast h1
      linarith
    constructor
    · rw [hfr]; linarith
    · rw [hfr]; linarith
  · rw [if_neg h1]
    by_cases h2 : b < 2 * (a % b)
    · rw [if_pos h2]
      have hbig : 1/2 ≤ ((a % b : Nat):ℚ)/b := by
        rw [div_le_div_iff (by norm_num) hbq]
        have : (b:ℚ) < 2 * ((a % b : Nat):ℚ) := by exact_mod_cast h2
        linarith
      constructor
      · rw [hfr]; push_cast; linarith
      · rw [hfr]; push_cast; linarith
    · rw [if_neg h2]
      have heq : 2 * (a % b) = b := by omega
      have heqq : ((a % b : Nat):ℚ)/b = 1/2 := by
        rw [div_eq_div_iff (ne_of_gt hbq) (by norm_num)]
        have : 2 * ((a % b : Nat):ℚ) = (b:ℚ) := by exact_mod_cast heq
        linarith
      by_cases h3 : a / b % 2 = 0
      · rw [if_pos h3]
        constructor
        · rw [hfr]; linarith
        · rw [hfr]; linarith
      · rw [if_neg h3]
        constructor
        · rw [hfr]; push_cast; linarith
        · rw [hfr]; push_cast; linarith

lemma zpow_toNat_eq {z : Int} (hz : 0 ≤ z) : (2:ℚ)^z = ((2 ^ z.toNat : Nat) : ℚ) := by
  push_cast
  rw [← zpow_natCast (2:ℚ) z.toNat, Int.toNat_of_nonneg hz]

lemma zpow_neg_toNat {z : Int} (hz : ¬ 0 ≤ z) : (2:ℚ)^z = 1 / ((2 ^ (-z).toNat : Nat) : ℚ) := by
  have h1 : ((-z).toNat : Int) = -z := Int.toNat_of_nonneg (by omega)
  push_cast
  rw [← zpow_natCast (2:ℚ) (-z).toNat, h1, zpow_neg, one_div, inv_inv]

lemma zpred_bracket {n d : Nat} (hd : 0 < d) {z : Int} (h : zpred n d z = true) :
    (2:ℚ)^z ≤ (n:ℚ)/d ∧ (n:ℚ)/d < (2:ℚ)^(z+1) := by
  have hdq : (0:ℚ) < (d:ℚ) := by exact_mod_cast hd
  unfold zpred at h
  rw [Bool.and_eq_true] at h
  obtain ⟨h1, h2⟩ := h
  constructor
  · unfold pow2LeFrac at h1
    by_cases hz : 0 ≤ z
    · rw [if_pos hz] at h1
      have hnat := of_decide_eq_true h1
      rw [zpow_toNat_eq hz, le_div_iff hdq]
      exact_mod_cast hnat
    · rw [if_neg hz] at h1
      have hnat := of_decide_eq_true h1
      have hp : (0:ℚ) < ((2 ^ (-z).toNat : Nat) : ℚ) := by positivity
      rw [zpow_neg_toNat hz, div_le_div_iff hp hdq, one_mul]
      exact_mod_cast hnat
  · unfold fracLtPow2 at h2
    by_cases hz : 0 ≤ z + 1
    · rw [if_pos hz] at h2
      have hnat := of_decide_eq_true h2
      rw [zpow_toNat_eq hz, div_lt_iff hdq]
      exact_mod_cast hnat
    · rw [if_neg hz] at h2
      have hnat := of_decide_eq_true h2
      have hp : (0:ℚ) < ((2 ^ (-(z+1)).toNat : Nat) : ℚ) := by positivity
      rw [zpow_neg_toNat hz, div_lt_div_iff hdq hp, one_mul]
      exact_mod_cast hnat

lemma rdpCore_finite_bounds {n d : Nat} (hd : 0 < d) {e : Int} {v : Frac}
    (h : rdpCore n d e = .finite v) :
    0 < v.den ∧ 0 ≤ v.num ∧
    (n:ℚ)/d - (2:ℚ)^e/2 ≤ v.val ∧ v.val ≤ (n:ℚ)/d + (2:ℚ)^e/2 := by
  have hdq : (0:ℚ) < (d:ℚ) := by exact_mod_cast hd
  unfold rdpCore at h
  by_cases he : 0 ≤ e
  · rw [if_pos he] at h
    by_cases hov : 2 ^ 1024 ≤ rhe n (d * 2 ^ e.toNat) * 2 ^ e.toNat
    · rw [if_pos hov] at h
      exact absurd h (by simp)
    · rw [if_neg hov] at h
      injection h with h'
      subst h'
      set t := e.toNat with ht
      have hbpos : 0 < d * 2 ^ t := Nat.mul_pos hd (pow_pos (by norm_num) t)
      obtain ⟨hl, hu⟩ := rhe_err n (d * 2 ^ t) hbpos
      have hP : (0:ℚ) < (2:ℚ)^t := by positivity
      have hden : ((d * 2 ^ t : Nat):ℚ) = (d:ℚ) * (2:ℚ)^t := by push_cast; ring
      have hid : (n:ℚ)/((d:ℚ)*(2:ℚ)^t)*(2:ℚ)^t = (n:ℚ)/d := by
        field_simp
        ring
      have hE : (2:ℚ)^e = (2:ℚ)^t := by
        rw [zpow_toNat_eq he]
        push_cast
        ring
      rw [hden] at hl hu
      have hval : Frac.val ⟨((rhe n (d * 2 ^ t) * 2 ^ t : Nat) : Int), 1⟩ =
          (rhe n (d * 2 ^ t) : ℚ) * (2:ℚ)^t := by
        unfold Frac.val
        push_cast
        ring
      refine ⟨Nat.one_pos, Int.natCast_nonneg _, ?_, ?_⟩
      · rw [hval, hE]
        have h2 := mul_le_mul_of_nonneg_right hl (le_of_lt hP)
        rw [sub_mul, hid] at h2
        linarith
      · rw [hval, hE]
        have h2 := mul_le_mul_of_nonneg_right hu (le_of_lt hP)
        rw [add_mul, hid] at h2
        linarith
  · rw [if_neg he] at h
    by_cases hov : 2 ^ (1024 + (-e).toNat) ≤ rhe (n * 2 ^ (-e).toNat) d
    · rw [if_pos hov] at h
      exact absurd h (by simp)
    · rw [if_neg hov] at h
      injection h with h'
      subst h'
      set w := (-e).toNat with hw
      obtain ⟨hl, hu⟩ := rhe_err (n * 2 ^ w) d hd
      have hPw : (0:ℚ) < (2:ℚ)^w := by positivity
      have hnum : ((n * 2 ^ w : Nat):ℚ) = (n:ℚ)*(2:ℚ)^w := by push_cast; ring
      have hE : (2:ℚ)^e = 1/(2:ℚ)^w := by
        rw [zpow_neg_toNat he]
        push_cast
        ring
      rw [hnum] at hl hu
      have hval : Frac.val ⟨(rhe (n * 2 ^ w) d : Int), 2 ^ w⟩ =
          (rhe (n * 2 ^ w) d : ℚ) / (2:ℚ)^w := by
        unfold Frac.val
        push_cast
        ring
      have hid : (n:ℚ)*(2:ℚ)^w/d/(2:ℚ)^w = (n:ℚ)/d := by
        field_simp
        ring
      have hhalf : (1/2 : ℚ)/(2:ℚ)^w = (1/(2:ℚ)^w)/2 := by ring
      refine ⟨pow_pos (by norm_num) w, Int.natCast_nonneg _, ?_, ?_⟩
      · rw [hval, hE]
        have h2 := (div_le_div_right hPw).mpr hl
        rw [sub_div, hid, hhalf] at h2
        linarith
      · rw [hval, hE]
        have h2 := (div_le_div_right hPw).mpr hu
        rw [add_div, hid, hhalf] at h2
        linarith

lemma rdpCore_finite_of_small {n d : Nat} (hd : 0 < d) {e : Int}
    (hsm : (n:ℚ)/d + (2:ℚ)^e/2 < (2:ℚ)^(1024:ℕ)) :
    ∃ v, rdpCore n d e = .finite v := by
  have hdq : (0:ℚ) < (d:ℚ) := by exact_mod_cast hd
  unfold rdpCore
  by_cases he : 0 ≤ e
  · rw [if_pos he]
    have hcond : ¬ (2 ^ 1024 ≤ rhe n (d * 2 ^ e.toNat) * 2 ^ e.toNat) := by
      intro hov
      set t := e.toNat with ht
      have hbpos : 0 < d * 2 ^ t := Nat.mul_pos hd (pow_pos (by norm_num) t)
      obtain ⟨hl, hu⟩ := rhe_err n (d * 2 ^ t) hbpos
      have hP : (0:ℚ) < (2:ℚ)^t := by positivity
      have hden : ((d * 2 ^ t : Nat):ℚ) = (d:ℚ) * (2:ℚ)^t := by push_cast; ring
      have hid : (n:ℚ)/((d:ℚ)*(2:ℚ)^t)*(2:ℚ)^t = (n:ℚ)/d := by
        field_simp
        ring
      have hE : (2:ℚ)^e = (2:ℚ)^t := by
        rw [zpow_toNat_eq he]
        push_cast
        ring
      rw [hden] at hu
      have hu2 : (rhe n (d * 2 ^ t) : ℚ)*(2:ℚ)^t ≤ (n:ℚ)/d + (2:ℚ)^t/2 := by
        have h2 := mul_le_mul_of_nonneg_right hu (le_of_lt hP)
        rw [add_mul, hid] at h2
        linarith
      have hovq : ((2:ℚ))^(1024:ℕ) ≤ (rhe n (d * 2 ^ t) : ℚ)*(2:ℚ)^t := by
        exact_mod_cast hov
      rw [hE] at hsm
      linarith
    rw [if_neg hcond]
    exact ⟨_, rfl⟩
  · rw [if_neg he]
    have hcond : ¬ (2 ^ (1024 + (-e).toNat) ≤ rhe (n * 2 ^ (-e).toNat) d) := by
      intro hov
      set w := (-e).toNat with hw
      obtain ⟨hl, hu⟩ := rhe_err (n * 2 ^ w) d hd
      have hPw : (0:ℚ) < (2:ℚ)^w := by positivity
      have hnum : ((n * 2 ^ w : Nat):ℚ) = (n:ℚ)*(2:ℚ)^w := by push_cast; ring
      have hE : (2:ℚ)^e = 1/(2:ℚ)^w := by
        rw [zpow_neg_toNat he]
        push_cast
        ring
      rw [hnum] at hu
      have hovq : (2:ℚ)^(1024:ℕ) * (2:ℚ)^w ≤ (rhe (n * 2 ^ w) d : ℚ) := by
        have hcast : ((2:ℚ))^(1024 + w : ℕ) ≤ (rhe (n * 2 ^ w) d : ℚ) := by
          exact_mod_cast hov
        rw [pow_add] at hcast
        exact hcast
      have hmul : ((n:ℚ)/d + (2:ℚ)^e/2) * (2:ℚ)^w < (2:ℚ)^(1024:ℕ) * (2:ℚ)^w :=
        mul_lt_mul_of_pos_right hsm hPw
      have hE2 : (2:ℚ)^e/2*(2:ℚ)^w = 1/2 := by
        rw [hE]
        field_simp
      have hid : (n:ℚ)*(2:ℚ)^w/d = (n:ℚ)/d*(2:ℚ)^w := by ring
      rw [add_mul, hE2] at hmul
      rw [hid] at hu
      linarith
    rw [if_neg hcond]
    exact ⟨_, rfl⟩

lemma rdpExp_bound (n d : Nat) (hd : 0 < d) :
    (2:ℚ)^(rdpExp n d) ≤ ((n:ℚ)/d)/2^52 + (2:ℚ)^(-1074:Int) := by
  have hq0 : (0:ℚ) ≤ (n:ℚ)/d := by positivity
  unfold rdpExp
  cases hf : (zCandidates n d).find? (zpred n d) with
  | none =>
    dsimp only
    have h1 : (0:ℚ) ≤ ((n:ℚ)/d)/2^52 := by positivity
    linarith
  | some z =>
    dsimp only
    have hz := List.find?_some hf
    obtain ⟨hlb, _⟩ := zpred_bracket hd hz
    rcases le_total (-1074 : Int) (z - 52) with hcmp | hcmp
    · rw [max_eq_left hcmp]
      have h1 : (2:ℚ)^(z - 52) = (2:ℚ)^z / (2:ℚ)^(52:ℕ) := by
        rw [show (52:ℤ) = ((52:ℕ):ℤ) from rfl, zpow_sub₀ (by norm_num : (2:ℚ) ≠ 0),
          zpow_natCast]
      rw [h1]
      have h2 : (2:ℚ)^z / (2:ℚ)^(52:ℕ) ≤ ((n:ℚ)/d)/(2:ℚ)^(52:ℕ) :=
        (div_le_div_right (by positivity)).mpr hlb
      have h3 : (0:ℚ) < (2:ℚ)^(-1074:Int) := by positivity
      linarith
    · rw [max_eq_right hcmp]
      have h1 : (0:ℚ) ≤ ((n:ℚ)/d)/2^52 := by positivity
      linarith

lemma roundDoublePos_bounds {n d : Nat} (hd : 0 < d) {v : Frac}
    (h : roundDoublePos n d = .finite v) :
    0 < v.den ∧ 0 ≤ v.num ∧
    (n:ℚ)/d - (((n:ℚ)/d)/2^53 + (2:ℚ)^(-1075:Int)) ≤ v.val ∧
    v.val ≤ (n:ℚ)/d + (((n:ℚ)/d)/2^53 + (2:ℚ)^(-1075:Int)) := by
  obtain ⟨h1, h2, h3, h4⟩ :=
    rdpCore_finite_bounds hd (show rdpCore n d (rdpExp n d) = .finite v from h)
  have hb := rdpExp_bound n d hd
  have e1 : ((n:ℚ)/d)/2^52/2 = ((n:ℚ)/d)/2^53 := by
    rw [div_div]
    norm_num
  have e2 : (2:ℚ)^(-1074:Int)/2 = (2:ℚ)^(-1075:Int) := by
    rw [div_eq_mul_inv, ← zpow_neg_one, ← zpow_add₀ (by norm_num : (2:ℚ) ≠ 0)]
    norm_num
  refine ⟨h1, h2, by linarith, by linarith⟩

lemma roundDoublePos_finite_of_small {n d : Nat} (hd : 0 < d)
    (hsm : (n:ℚ)/d < (2:ℚ)^(1023:ℕ)) :
    ∃ v, roundDoublePos n d = .finite v := by
  show ∃ v, rdpCore n d (rdpExp n d) = .finite v
  apply rdpCore_finite_of_small hd
  have hb := rdpExp_bound n d hd
  have hq0 : (0:ℚ) ≤ (n:ℚ)/d := div_nonneg (Nat.cast_nonneg n) (Nat.cast_nonneg d)
  have h1 : ((n:ℚ)/d)/2^52 ≤ (n:ℚ)/d := by
    apply div_le_self hq0
    norm_num
  have h2 : (2:ℚ)^(-1074:Int) ≤ 1 := by
    rw [zpow_neg_toNat (by norm_num)]
    rw [div_le_one (by exact_mod_cast pow_pos (by norm_num : (0:ℕ) < 2) _)]
    exact_mod_cast Nat.one_le_two_pow
  have h3 : (1:ℚ) ≤ (2:ℚ)^(1023:ℕ) := one_le_pow₀ (by norm_num)
  have h4 : (2:ℚ)^(1024:ℕ) = 2 * (2:ℚ)^(1023:ℕ) := by
    rw [show (1024:ℕ) = 1023 + 1 from rfl, pow_succ]
    ring
  rw [h4]
  linarith

lemma frac_le_iff {x y : Frac} (hx : 0 < x.den) (hy : 0 < y.den) :
    Frac.le x y = true ↔ x.val ≤ y.val := by
  unfold Frac.le Frac.val
  rw [decide_eq_true_eq,
    div_le_div_iff (by exact_mod_cast hx : (0:ℚ) < x.den) (by exact_mod_cast hy : (0:ℚ) < y.den)]
  constructor
  · intro h
    exact_mod_cast h
  · intro h
    exact_mod_cast h

lemma MAX_PRICE_D_spec :
    0 < DataValidator.MAX_PRICE_D.den ∧ 0 ≤ DataValidator.MAX_PRICE_D.num ∧
    (99999999:ℚ)/100 - ((99999999:ℚ)/100/2^53 + (2:ℚ)^(-1075:Int)) ≤
      DataValidator.MAX_PRICE_D.val ∧
    DataValidator.MAX_PRICE_D.val ≤
      (99999999:ℚ)/100 + ((99999999:ℚ)/100/2^53 + (2:ℚ)^(-1075:Int)) := by
  have hsm : ((99999999:ℕ):ℚ)/((100:ℕ):ℚ) < (2:ℚ)^(1023:ℕ) := by
    have h20 : (2:ℚ)^(20:ℕ) ≤ (2:ℚ)^(1023:ℕ) := pow_le_pow_right (by norm_num) (by norm_num)
    have hlt : ((99999999:ℕ):ℚ)/((100:ℕ):ℚ) < (2:ℚ)^(20:ℕ) := by norm_num
    linarith
  obtain ⟨v, hv⟩ := roundDoublePos_finite_of_small (n := 99999999) (d := 100)
    (by norm_num) hsm
  have hM : DataValidator.MAX_PRICE_D = v := by
    unfold DataValidator.MAX_PRICE_D
    rw [hv]
  rw [hM]
  have hb := roundDoublePos_bounds (n := 99999999) (d := 100) (by norm_num) hv
  have hc : ((99999999:ℕ):ℚ)/((100:ℕ):ℚ) = (99999999:ℚ)/100 := by norm_num
  rw [hc] at hb
  exact hb

lemma pad2_mem {m : Nat} {c : Char} (h : c ∈ DataValidator.pad2 m) :
    c ∈ (['0', '1', '2', '3', '4', '5', '6', '7', '8', '9'] : List Char) := by
  unfold DataValidator.pad2 at h
  split at h
  · rcases List.mem_cons.mp h with h | h
    · subst h
      decide
    · exact natRepr_mem h
  · exact natRepr_mem h

lemma pad2_ne_nil (m : Nat) : DataValidator.pad2 m ≠ [] := by
  unfold DataValidator.pad2
  split
  · simp
  · exact natRepr_ne_nil m

lemma natRepr_length_one {m : Nat} (h : m < 10) : (natRepr m).length = 1 := by
  interval_cases m <;> decide

lemma pad2_length {m : Nat} (h : m < 100) : (DataValidator.pad2 m).length = 2 := by
  unfold DataValidator.pad2
  split
  · rename_i h10
    rw [List.length_cons, natRepr_length_one h10]
  · rename_i h10
    push_neg at h10
    have hu := natRepr_length_upper m
    have hl := natRepr_length_lower (show m ≠ 0 by omega)
    have hL1 : 2 ≤ (natRepr m).length := by
      by_contra hc
      push_neg at hc
      have hp : (10:ℕ) ^ (natRepr m).length ≤ 10 ^ 1 :=
        Nat.pow_le_pow_right (by norm_num) (by omega)
      simp only [pow_one] at hp
      omega
    have hL2 : (natRepr m).length ≤ 2 := by
      by_contra hc
      push_neg at hc
      have hp : (10:ℕ) ^ 2 ≤ 10 ^ ((natRepr m).length - 1) :=
        Nat.pow_le_pow_right (by norm_num) (by omega)
      norm_num at hp
      omega
    omega

lemma digitsToNat_zero_cons (l : List Char) : digitsToNat ('0' :: l) = digitsToNat l := by
  unfold digitsToNat
  rw [List.foldl_cons]
  rw [show (10 * 0 + digitVal '0') = 0 from by decide]

lemma digitsToNat_pad2 (m : Nat) : digitsToNat (DataValidator.pad2 m) = m := by
  unfold DataValidator.pad2
  split
  · rw [digitsToNat_zero_cons]
    exact digitsToNat_natRepr m
  · exact digitsToNat_natRepr m

lemma splitOnce_none {p : Char → Bool} {l : List Char} (h : ∀ c ∈ l, p c = false) :
    splitOnce p l = none := by
  induction l with
  | nil => rfl
  | cons c r ih =>
    rw [splitOnce, if_neg (by simp [h c (List.mem_cons_self c r)]),
      ih fun x hx => h x (List.mem_cons_of_mem _ hx)]
    rfl

lemma splitOnce_split {p : Char → Bool} {l₁ l₂ : List Char} {s : Char}
    (h : ∀ c ∈ l₁, p c = false) (hs : p s = true) :
    splitOnce p (l₁ ++ s :: l₂) = some (l₁, l₂) := by
  induction l₁ with
  | nil =>
    rw [List.nil_append, splitOnce, if_pos hs]
  | cons c r ih =>
    rw [List.cons_append, splitOnce, if_neg (by simp [h c (List.mem_cons_self c r)]),
      ih fun x hx => h x (List.mem_cons_of_mem _ hx)]
    rfl

lemma lowerEq_false {l w : List Char} {c : Char} (hc : c ∈ l) (hw : Char.toLower c ∉ w) :
    lowerEq l w = false := by
  rcases Bool.eq_false_or_eq_true (lowerEq l w) with h | h
  · exfalso
    unfold lowerEq at h
    have heq : l.map Char.toLower = w := by simpa using h
    exact hw (heq ▸ List.mem_map_of_mem Char.toLower hc)
  · exact h

lemma priceStr_digits {k : Nat} {c : Char}
    (h : c ∈ natRepr (k / 100) ++ '.' :: DataValidator.pad2 (k % 100)) :
    c = '.' ∨ c ∈ (['0', '1', '2', '3', '4', '5', '6', '7', '8', '9'] : List Char) := by
  rcases List.mem_append.mp h with h | h
  · exact Or.inr (natRepr_mem h)
  · rcases List.mem_cons.mp h with h | h
    · exact Or.inl h
    · exact Or.inr (pad2_mem h)

lemma parseMantissa_priceBody (k : Nat) :
    parseMantissa (natRepr (k / 100) ++ '.' :: DataValidator.pad2 (k % 100)) = some (k, 2) := by
  have hMdig : ∀ c ∈ natRepr (k / 100), isDigitC c = true :=
    fun c hc => digit_isDigitC (natRepr_mem hc)
  have hPdig : ∀ c ∈ DataValidator.pad2 (k % 100), isDigitC c = true :=
    fun c hc => digit_isDigitC (pad2_mem hc)
  have hMdot : ∀ c ∈ natRepr (k / 100), ((c = '.' : Bool)) = false := by
    intro c hc
    have := natRepr_mem hc
    fin_cases this <;> decide
  unfold parseMantissa
  rw [splitOnce_split hMdot (by decide)]
  dsimp only
  rw [if_neg (natRepr_ne_nil _), if_neg (pad2_ne_nil _),
    underDigits_digits (natRepr_ne_nil _) hMdig,
    underDigits_digits (pad2_ne_nil _) hPdig]
  dsimp only
  rw [digitsToNat_natRepr, digitsToNat_pad2, pad2_length (Nat.mod_lt k (by norm_num))]
  rw [show k / 100 * 10 ^ 2 + k % 100 = k from by omega]

lemma parseFloat_priceStr (neg : Bool) (k : Nat) :
    parseFloat (priceStr neg k) = some (.num neg k 2 0) := by
  have hnospace : ∀ c ∈ (priceStr neg k).data, isPySpace c = false := by
    intro c hc
    have hdata : (priceStr neg k).data =
        (if neg then ['-'] else []) ++
          (natRepr (k / 100) ++ '.' :: DataValidator.pad2 (k % 100)) := by
      show ((if neg then ['-'] else []) ++ natRepr (k / 100)) ++
          '.' :: DataValidator.pad2 (k % 100) = _
      exact List.append_assoc _ _ _
    rw [hdata] at hc
    rcases List.mem_append.mp hc with hc | hc
    · cases neg with
      | true =>
        simp only [if_true, List.mem_singleton] at hc
        subst hc
        decide
      | false => simp at hc
    · rcases priceStr_digits hc with h | h
      · subst h
        decide
      · exact digit_not_space h
  have hstrip : stripL (priceStr neg k).data = (priceStr neg k).data :=
    stripL_eq_self hnospace
  have hdot : '.' ∈ natRepr (k / 100) ++ '.' :: DataValidator.pad2 (k % 100) :=
    List.mem_append.mpr (Or.inr (List.mem_cons_self _ _))
  have heE : ∀ c ∈ natRepr (k / 100) ++ '.' :: DataValidator.pad2 (k % 100),
      ((c = 'e' : Bool) || (c = 'E' : Bool)) = false := by
    intro c hc
    rcases priceStr_digits hc with h | h
    · subst h
      decide
    · fin_cases h <;> decide
  cases neg with
  | true =>
    have hd1 : (priceStr true k).data =
        '-' :: (natRepr (k / 100) ++ '.' :: DataValidator.pad2 (k % 100)) := rfl
    unfold parseFloat
    rw [hstrip, hd1]
    dsimp only
    rw [if_pos rfl]
    dsimp only
    rw [lowerEq_false hdot (by decide), lowerEq_false hdot (by decide)]
    rw [if_neg (by decide)]
    rw [lowerEq_false hdot (by decide), if_neg (by decide)]
    rw [splitOnce_none heE]
    dsimp only
    rw [parseMantissa_priceBody]
    rfl
  | false =>
    obtain ⟨c0, cs, hcons⟩ := List.exists_cons_of_ne_nil (natRepr_ne_nil (k / 100))
    have hc0 : c0 ∈ (['0', '1', '2', '3', '4', '5', '6', '7', '8', '9'] : List Char) :=
      natRepr_mem (by rw [hcons]; exact List.mem_cons_self _ _)
    have hd1 : (priceStr false k).data =
        c0 :: (cs ++ '.' :: DataValidator.pad2 (k % 100)) := by
      show ([] ++ natRepr (k / 100)) ++ '.' :: DataValidator.pad2 (k % 100) = _
      rw [List.nil_append, hcons, List.cons_append]
    have hback : c0 :: (cs ++ '.' :: DataValidator.pad2 (k % 100)) =
        natRepr (k / 100) ++ '.' :: DataValidator.pad2 (k % 100) := by
      rw [hcons, List.cons_append]
    have hne1 : ¬(c0 = '-') := by fin_cases hc0 <;> decide
    have hne2 : ¬(c0 = '+') := by fin_cases hc0 <;> decide
    unfold parseFloat
    rw [hstrip, hd1]
    dsimp only
    rw [if_neg hne1, if_neg hne2]
    dsimp only
    rw [hback]
    rw [lowerEq_false hdot (by decide), lowerEq_false hdot (by decide)]
    rw [if_neg (by decide)]
    rw [lowerEq_false hdot (by decide), if_neg (by decide)]
    rw [splitOnce_none heE]
    dsimp only
    rw [parseMantissa_priceBody]
    rfl

lemma digitCount_pos (m : Nat) : 0 < digitCount m := by
  unfold digitCount
  cases h : natRepr m with
  | nil => exact absurd h (natRepr_ne_nil m)
  | cons c r => simp

lemma digitCount_le_of_lt {m B : Nat} (hm : m ≠ 0) (h : m < 10 ^ B) : digitCount m ≤ B := by
  have hl : 10 ^ (digitCount m - 1) ≤ m := natRepr_length_lower hm
  by_contra hc
  push_neg at hc
  have hp : (10:ℕ) ^ B ≤ 10 ^ (digitCount m - 1) :=
    Nat.pow_le_pow_right (by norm_num) (by omega)
  omega

lemma digitCount_gt_of_le {m B : Nat} (h : 10 ^ B ≤ m) : B < digitCount m := by
  have hu : m < 10 ^ digitCount m := natRepr_length_upper m
  by_contra hc
  push_neg at hc
  have hp : (10:ℕ) ^ digitCount m ≤ 10 ^ B :=
    Nat.pow_le_pow_right (by norm_num) hc
  omega

lemma floatOfTok_price {k : Nat} (hk : k ≠ 0) (hdc : digitCount k ≤ 332) (neg : Bool) :
    floatOfTok (.num neg k 2 0) =
      (match roundDoublePos k 100 with
       | .finite v => PyFloat.finite (if neg then ⟨-v.num, v.den⟩ else v)
       | .infty _ => PyFloat.infty neg
       | .nan => PyFloat.nan) := by
  have hpos := digitCount_pos k
  rw [floatOfTok]
  rw [if_neg hk]
  dsimp only
  rw [if_neg (by push_cast; omega), if_neg (by push_cast; omega)]
  rw [if_neg (by decide : ¬ ((0:Int) ≤ 0 - ((2:ℕ):Int)))]
  dsimp only
  rw [show (10:ℕ) ^ (-(0 - ((2:ℕ):Int))).toNat = 100 from by decide]

lemma floatOfTok_price_big {k : Nat} (hk : k ≠ 0) (hdc : 332 < digitCount k) (neg : Bool) :
    floatOfTok (.num neg k 2 0) = .infty neg := by
  rw [floatOfTok]
  rw [if_neg hk]
  dsimp only
  rw [if_pos (by push_cast; omega)]

lemma validate_priceStr_pos {k : Nat} (hk : k ≠ 0) (hdc : digitCount k ≤ 332) :
    DataValidator.validate_price_range (priceStr false k) =
      (match roundDoublePos k 100 with
       | .finite v => Frac.le ⟨0, 1⟩ v && Frac.le v DataValidator.MAX_PRICE_D
       | _ => false) := by
  unfold DataValidator.validate_price_range
  rw [show pyFloat (priceStr false k) = some (floatOfTok (.num false k 2 0)) from by
        unfold pyFloat
        rw [parseFloat_priceStr]
        rfl,
    floatOfTok_price hk hdc false]
  cases hr : roundDoublePos k 100 with
  | finite v => rfl
  | infty b => rfl
  | nan => rfl

lemma validate_priceStr_neg {k : Nat} (hk : k ≠ 0) (hdc : digitCount k ≤ 332) :
    DataValidator.validate_price_range (priceStr true k) =
      (match roundDoublePos k 100 with
       | .finite v =>
         Frac.le ⟨0, 1⟩ (⟨-v.num, v.den⟩ : Frac) &&
           Frac.le (⟨-v.num, v.den⟩ : Frac) DataValidator.MAX_PRICE_D
       | _ => false) := by
  unfold DataValidator.validate_price_range
  rw [show pyFloat (priceStr true k) = some (floatOfTok (.num true k 2 0)) from by
        unfold pyFloat
        rw [parseFloat_priceStr]
        rfl,
    floatOfTok_price hk hdc true]
  cases hr : roundDoublePos k 100 with
  | finite v => rfl
  | infty b => rfl
  | nan => rfl

lemma validate_priceStr_big {k : Nat} (hk : k ≠ 0) (hdc : 332 < digitCount k) (neg : Bool) :
    DataValidator.validate_price_range (priceStr neg k) = false := by
  unfold DataValidator.validate_price_range
  rw [show pyFloat (priceStr neg k) = some (floatOfTok (.num neg k 2 0)) from by
        unfold pyFloat
        rw [parseFloat_priceStr]
        rfl,
    floatOfTok_price_big hk hdc neg]

lemma small_zpow : (2:ℚ)^(-1075:Int) ≤ 1/2^53 := by
  rw [zpow_neg_toNat (by norm_num)]
  have h1 : ((2:ℚ))^(53:ℕ) ≤ ((2 ^ (-(-1075:Int)).toNat : Nat) : ℚ) := by
    have h2 : ((2:ℚ))^(53:ℕ) ≤ (2:ℚ)^(1075:ℕ) := pow_le_pow_right (by norm_num) (by norm_num)
    have h3 : ((2 ^ 1075 : Nat):ℚ) = (2:ℚ)^(1075:ℕ) := by push_cast; ring
    have h4 : (-(-1075:Int)).toNat = 1075 := by decide
    rw [h4, h3]
    exact h2
  exact one_div_le_one_div_of_le (by norm_num) h1

lemma normalize_price_shape (s : String) :
    ∃ neg k, DataValidator.normalize_price s = priceStr neg k := by
  unfold DataValidator.normalize_price
  split
  · exact ⟨false, 0, by decide⟩
  · split
    · rename_i d hd
      refine ⟨d.neg,
        if d.scale ≤ 2 then d.m * 10 ^ (2 - d.scale) else rhe d.m (10 ^ (d.scale - 2)), ?_⟩
      rfl
    · exact ⟨false, 0, by decide⟩

/-- C4: every normalized price has the shape `priceStr neg k` of value
`±k/100`; `validate_price_range` accepts `priceStr false k` exactly for
`k ≤ 99999999` and rejects every negative-signed nonzero price, so the
accepted set is exactly the closed interval `[0.00, 999999.99]`; the
boundary strings behave as claimed and the loader keeps/rejects the
corresponding rows. -/
theorem claim_C4_price_range :
    (∀ s : String, ∃ neg k, DataValidator.normalize_price s = priceStr neg k) ∧
    (∀ k : Nat, k ≤ 99999999 →
      DataValidator.validate_price_range (priceStr false k) = true) ∧
    (∀ k : Nat, 99999999 < k →
      DataValidator.validate_price_range (priceStr false k) = false) ∧
    (∀ k : Nat, 0 < k →
      DataValidator.validate_price_range (priceStr true k) = false) ∧
    (DataValidator.validate_price_range "0.00" = true ∧
     DataValidator.validate_price_range "999999.99" = true ∧
     DataValidator.validate_price_range "1000000.00" = false) ∧
    ((CSVLoader.processRow (c4Row "0.00") "T").isSome = true ∧
     (CSVLoader.processRow (c4Row "999999.99") "T").isSome = true ∧
     CSVLoader.processRow (c4Row "1000000.00") "T" = none ∧
     CSVLoader.processRow (c4Row "-5.00") "T" = none) := by
  refine ⟨normalize_price_shape, ?_, ?_, ?_,
    ⟨by decide, by decide, by decide⟩, ⟨by decide, by decide, by decide, by decide⟩⟩
  · intro kv hk99
    by_cases hk0 : kv = 0
    · subst hk0
      decide
    · have h10 : (10:ℕ) ^ 8 = 100000000 := by norm_num
      have hdc8 : digitCount kv ≤ 8 := digitCount_le_of_lt hk0 (by omega)
      rw [validate_priceStr_pos hk0 (by omega)]
      by_cases hk99e : kv = 99999999
      · subst hk99e
        decide
      · have h2big : (1000000:ℚ) ≤ (2:ℚ)^(1023:ℕ) := by
          have h20 : (2:ℚ)^(20:ℕ) ≤ (2:ℚ)^(1023:ℕ) :=
            pow_le_pow_right (by norm_num) (by norm_num)
          have hl20 : (1000000:ℚ) ≤ (2:ℚ)^(20:ℕ) := by norm_num
          linarith
        have hkleQ : ((kv:ℕ):ℚ) ≤ 99999998 := by
          exact_mod_cast (by omega : kv ≤ 99999998)
        have hsm : ((kv:ℕ):ℚ)/((100:ℕ):ℚ) < (2:ℚ)^(1023:ℕ) := by
          have hc : ((100:ℕ):ℚ) = 100 := by norm_num
          rw [hc]
          have h1 : ((kv:ℕ):ℚ)/100 ≤ (99999998:ℚ)/100 := by linarith
          have h2 : (99999998:ℚ)/100 < 1000000 := by norm_num
          linarith
        obtain ⟨v, hv⟩ := roundDoublePos_finite_of_small (by norm_num) hsm
        rw [hv]
        dsimp only
        obtain ⟨hden, hnum, hlow, hup⟩ := roundDoublePos_bounds (by norm_num) hv
        obtain ⟨hMden, hMnum, hMlow, hMup⟩ := MAX_PRICE_D_spec
        push_cast at hup hlow
        have hδ := small_zpow
        have hq1 : (kv:ℚ)/100 ≤ (99999998:ℚ)/100 := by linarith
        have hkey : (99999998:ℚ)/100 + ((99999998:ℚ)/100)/2^53 + (1:ℚ)/2^53 ≤
            (99999999:ℚ)/100 - ((99999999:ℚ)/100/2^53 + (1:ℚ)/2^53) := by norm_num
        have hle1 : Frac.le ⟨0, 1⟩ v = true := by
          unfold Frac.le
          rw [decide_eq_true_eq]
          simpa using hnum
        have hle2 : Frac.le v DataValidator.MAX_PRICE_D = true := by
          rw [frac_le_iff hden hMden]
          linarith [hup, hMlow, hδ, hq1, hkey]
        rw [hle1, hle2]
        rfl
  · intro kv hk99
    have hk0 : kv ≠ 0 := by omega
    by_cases hdc : digitCount kv ≤ 332
    · rw [validate_priceStr_pos hk0 hdc]
      cases hr : roundDoublePos kv 100 with
      | infty b => rfl
      | nan => rfl
      | finite v =>
        dsimp only
        obtain ⟨hden, hnum, hlow, hup⟩ := roundDoublePos_bounds (by norm_num) hr
        obtain ⟨hMden, hMnum, hMlow, hMup⟩ := MAX_PRICE_D_spec
        push_cast at hlow
        have hδ := small_zpow
        have hkge : (100000000:ℚ) ≤ (kv:ℚ) := by
          exact_mod_cast (by omega : 100000000 ≤ kv)
        have hkey2 : (99999999:ℚ)/100 + ((99999999:ℚ)/100/2^53 + (1:ℚ)/2^53) <
            (1000000:ℚ) - ((1000000:ℚ)/2^53 + (1:ℚ)/2^53) := by norm_num
        have hlt : DataValidator.MAX_PRICE_D.val < v.val := by
          linarith [hlow, hMup, hδ, hkge, hkey2]
        have hle2 : Frac.le v DataValidator.MAX_PRICE_D = false := by
          rcases Bool.eq_false_or_eq_true (Frac.le v DataValidator.MAX_PRICE_D) with hb | hb
          · exact absurd ((frac_le_iff hden hMden).mp hb) (not_le.mpr hlt)
          · exact hb
        rw [hle2, Bool.and_false]
    · push_neg at hdc
      exact validate_priceStr_big hk0 hdc false
  · intro kv hkpos
    have hk0 : kv ≠ 0 := by omega
    by_cases hdc : digitCount kv ≤ 332
    · rw [validate_priceStr_neg hk0 hdc]
      cases hr : roundDoublePos kv 100 with
      | infty b => rfl
      | nan => rfl
      | finite v =>
        dsimp only
        obtain ⟨hden, hnum, hlow, hup⟩ := roundDoublePos_bounds (by norm_num) hr
        push_cast at hlow
        have hδ := small_zpow
        have hk1 : (1:ℚ) ≤ (kv:ℚ) := by exact_mod_cast hkpos
        have hgap : (0:ℚ) < 1/100 - ((1:ℚ)/100)/2^53 - 1/2^53 := by norm_num
        have hvpos : 0 < v.val := by
          linarith [hlow, hδ, hk1, hgap]
        have hnumpos : 0 < v.num := by
          have hvq : (0:ℚ) < (v.num:ℚ)/(v.den:ℚ) := hvpos
          rcases div_pos_iff.mp hvq with ⟨ha, _⟩ | ⟨_, hb⟩
          · exact_mod_cast ha
          · exfalso
            have hdq : (0:ℚ) < (v.den:ℚ) := by exact_mod_cast hden
            linarith
        have hle1 : Frac.le ⟨0, 1⟩ (⟨-v.num, v.den⟩ : Frac) = false := by
          unfold Frac.le
          rw [decide_eq_false_iff_not]
          intro hcon
          simp only [zero_mul, Nat.cast_one, mul_one] at hcon
          omega
        rw [hle1, Bool.false_and]
    · push_neg at hdc
      exact validate_priceStr_big hk0 hdc true

/-- C4 witness: the accept and reject sides of the range check applied at
the concrete prices `7.25`, `1000000.00` and `-0.01`. -/
theorem claim_C4_price_range_witness :
    DataValidator.validate_price_range (priceStr false 725) = true ∧
    DataValidator.validate_price_range (priceStr false 100000000) = false ∧
    DataValidator.validate_price_range (priceStr true 1) = false :=
  ⟨claim_C4_price_range.2.1 725 (by decide),
   claim_C4_price_range.2.2.1 100000000 (by decide),
   claim_C4_price_range.2.2.2.1 1 (by decide)⟩

/-! ### Claim C1: second-run no-op machinery -/

lemma updFirst_self_of_fix {pred : Record → Bool} {f : Record → Record} {l : List Record}
    (h : ∀ r, l.find? pred = some r → f r = r) : (updFirst pred f l).1 = l := by
  cases hf : l.find? pred with
  | none => rw [updFirst_of_find?_none hf]
  | some r =>
    obtain ⟨l₁, l₂, hdec, hfail, hpred, hupd⟩ := updFirst_of_find?_some (f := f) hf
    rw [hupd]
    dsimp only
    rw [h r hf]
    exact hdec.symm

lemma tablesUpdFirst_self {tname : String} {pred : Record → Bool} {f : Record → Record}
    {tbs : List Table}
    (h : ∀ r, (allRecsT tname tbs).find? pred = some r → f r = r) :
    (tablesUpdFirst tname pred f tbs).1 = tbs := by
  induction tbs with
  | nil => rfl
  | cons t ts ih =>
    by_cases hname : t.name = tname
    · have hview : allRecsT tname (t :: ts) = t.records ++ allRecsT tname ts := by
        rw [allRecsT_cons, if_pos hname]
      rcases Bool.eq_false_or_eq_true (updFirst pred f t.records).2 with hflag | hflag
      · rw [tablesUpdFirst, if_pos hname, if_pos hflag]
        have hfix : (updFirst pred f t.records).1 = t.records := by
          apply updFirst_self_of_fix
          intro r hr
          apply h
          rw [hview]
          exact find?_append_of_some hr
        rw [hfix]
      · rw [tablesUpdFirst, if_pos hname, if_neg (by simp [hflag])]
        have hnone : t.records.find? pred = none := by
          cases hfind : t.records.find? pred with
          | none => rfl
          | some r =>
            obtain ⟨_, _, _, _, _, hupd⟩ := updFirst_of_find?_some (f := f) hfind
            rw [hupd] at hflag
            simp at hflag
        have hrec := ih (fun r hr => h r (by
          rw [hview, find?_append_of_none hnone]
          exact hr))
        rw [hrec]
    · rw [tablesUpdFirst, if_neg hname]
      have hview : allRecsT tname (t :: ts) = allRecsT tname ts := by
        rw [allRecsT_cons, if_neg hname]
      have hrec := ih (fun r hr => h r (by rw [hview]; exact hr))
      rw [hrec]

lemma updateExistingProduct_noop {plu dept : Int} {p : Product} {ts : String} {T : XMLTree}
    (hgood : ∀ r, (itemRecords T).find? (matchesKey plu dept) = some r →
      agreeB p r = true ∧ hasTS r = true) :
    updateExistingProduct plu dept p ts T = (T, false) := by
  unfold updateExistingProduct
  cases hf : (itemRecords T).find? (matchesKey plu dept) with
  | none => rfl
  | some r =>
    dsimp only
    obtain ⟨ha, ht⟩ := hgood r hf
    rw [recUpdate_self ha ht]
    dsimp only
    rw [if_neg (by simp)]
    have hself : (tablesUpdFirst "ITEM" (matchesKey plu dept) (fun _ => r) T.tables).1 =
        T.tables := by
      apply tablesUpdFirst_self
      intro r' hr'
      have hf' : (allRecsT "ITEM" T.tables).find? (matchesKey plu dept) = some r := hf
      rw [hf'] at hr'
      exact Option.some.inj hr'
    rw [hself]

lemma hasItemTable_of_names {T T' : XMLTree}
    (h : T'.tables.map Table.name = T.tables.map Table.name) :
    hasItemTable T' = hasItemTable T := by
  unfold hasItemTable
  have e1 : ∀ tbs : List Table, tbs.any (fun t => t.name == "ITEM") =
      (tbs.map Table.name).any (fun n => n == "ITEM") := by
    intro tbs
    induction tbs with
    | nil => rfl
    | cons t ts ih => simp [ih]
  rw [e1, e1, h]

lemma updateItemInBand_item_view (plu dept : Int) (np ts : String) (tr : XMLTree) :
    itemRecords (updateItemInBand plu dept np ts tr) = itemRecords tr ∧
    (updateItemInBand plu dept np ts tr).tables.map Table.name =
      tr.tables.map Table.name := by
  constructor
  · exact tablesUpdFirst_other "ITEM in Band" "ITEM" _ _ tr.tables (by decide)
  · exact tablesUpdFirst_names _ _ _ _

lemma addItemInBand_item_view (plu dept : Int) (price ts : String) (tr : XMLTree) :
    itemRecords (addItemInBand plu dept price ts tr) = itemRecords tr ∧
    (addItemInBand plu dept price ts tr).tables.map Table.name =
      tr.tables.map Table.name := by
  unfold addItemInBand
  cases ha : tablesAppend "ITEM in Band" ⟨bandRecordFields plu dept price ts⟩ tr.tables with
  | none => exact ⟨rfl, rfl⟩
  | some tbs =>
    dsimp only
    obtain ⟨_, hother, hnames⟩ := tablesAppend_view ha
    exact ⟨hother "ITEM" (by decide), hnames⟩

lemma memKey_of_mem {T : XMLTree} {A : Int × Int} {r : Record}
    (hr : r ∈ itemRecords T) (h : (recTruthy r && (extKey r == A)) = true) :
    memKey T A = true := by
  unfold memKey
  exact List.any_eq_true.mpr ⟨r, hr, h⟩

lemma memKey_elim {T : XMLTree} {A : Int × Int} (h : memKey T A = true) :
    ∃ r ∈ itemRecords T, (recTruthy r && (extKey r == A)) = true :=
  List.any_eq_true.mp h

lemma pred2_congr {r r' : Record} {A : Int × Int} (h : extKey r' = extKey r) :
    (recTruthy r' && (extKey r' == A)) = (recTruthy r && (extKey r == A)) := by
  unfold recTruthy
  rw [h]

lemma updateExistingProduct_view (plu dept : Int) (p : Product) (ts : String) (T : XMLTree) :
    (updateExistingProduct plu dept p ts T).1.tables.map Table.name =
      T.tables.map Table.name ∧
    (((itemRecords T).find? (matchesKey plu dept) = none ∧
        (updateExistingProduct plu dept p ts T).1 = T) ∨
     (∃ l₁ l₂ r, itemRecords T = l₁ ++ r :: l₂ ∧
        (∀ x ∈ l₁, matchesKey plu dept x = false) ∧
        matchesKey plu dept r = true ∧
        itemRecords (updateExistingProduct plu dept p ts T).1 =
          l₁ ++ (recUpdate p ts r).1 :: l₂)) := by
  cases hf : (itemRecords T).find? (matchesKey plu dept) with
  | none =>
    have hu : updateExistingProduct plu dept p ts T = (T, false) := by
      unfold updateExistingProduct
      rw [hf]
    rw [hu]
    exact ⟨rfl, Or.inl ⟨rfl, rfl⟩⟩
  | some r =>
    have hu : updateExistingProduct plu dept p ts T =
        (if (recUpdate p ts r).2.2 = true then
            updateItemInBand plu dept p.price ts
              ⟨(tablesUpdFirst "ITEM" (matchesKey plu dept)
                  (fun _ => (recUpdate p ts r).1) T.tables).1⟩
          else ⟨(tablesUpdFirst "ITEM" (matchesKey plu dept)
                  (fun _ => (recUpdate p ts r).1) T.tables).1⟩,
         (recUpdate p ts r).2.1) := by
      unfold updateExistingProduct
      rw [hf]
    obtain ⟨l₁, l₂, hdec, hfail, hpred, hupd⟩ :=
      updFirst_of_find?_some (f := fun _ => (recUpdate p ts r).1) hf
    have hview1 : allRecsT "ITEM"
        (tablesUpdFirst "ITEM" (matchesKey plu dept)
          (fun _ => (recUpdate p ts r).1) T.tables).1 =
        l₁ ++ (recUpdate p ts r).1 :: l₂ := by
      rw [(tablesUpdFirst_view _ _ _ _).1,
        show allRecsT "ITEM" T.tables = itemRecords T from rfl, hupd]
    have hnames1 : (tablesUpdFirst "ITEM" (matchesKey plu dept)
        (fun _ => (recUpdate p ts r).1) T.tables).1.map Table.name =
        T.tables.map Table.name := tablesUpdFirst_names _ _ _ _
    rw [hu]
    rcases Bool.eq_false_or_eq_true (recUpdate p ts r).2.2 with hflag | hflag
    · rw [if_pos hflag]
      dsimp only
      obtain ⟨hbI, hbN⟩ := updateItemInBand_item_view plu dept p.price ts
        ⟨(tablesUpdFirst "ITEM" (matchesKey plu dept)
            (fun _ => (recUpdate p ts r).1) T.tables).1⟩
      constructor
      · rw [hbN]
        exact hnames1
      · refine Or.inr ⟨l₁, l₂, r, hdec, hfail, hpred, ?_⟩
        rw [hbI]
        exact hview1
    · rw [if_neg (by simp [hflag])]
      dsimp only
      exact ⟨hnames1, Or.inr ⟨l₁, l₂, r, hdec, hfail, hpred, hview1⟩⟩

lemma addNewProduct_none_elim {plu dept : Int} {p : Product} {ts : String} {T : XMLTree}
    (h : addNewProduct plu dept p ts T = none) : hasItemTable T = false := by
  unfold addNewProduct at h
  cases ha : tablesAppend "ITEM" ⟨defaultFieldValues p plu dept ts⟩ T.tables with
  | none =>
    have hno := (tablesAppend_none_iff _ _ _).mp ha
    rcases Bool.eq_false_or_eq_true (hasItemTable T) with hb | hb
    · exfalso
      unfold hasItemTable at hb
      obtain ⟨t, ht, hteq⟩ := List.any_eq_true.mp hb
      exact hno t ht (by simpa using hteq)
    · exact hb
  | some tbs =>
    rw [ha] at h
    simp at h

lemma addNewProduct_some_view {plu dept : Int} {p : Product} {ts : String} {T T' : XMLTree}
    (h : addNewProduct plu dept p ts T = some T') :
    T'.tables.map Table.name = T.tables.map Table.name ∧
    ∃ l₁ l₂, itemRecords T = l₁ ++ l₂ ∧
      itemRecords T' = l₁ ++ (⟨defaultFieldValues p plu dept ts⟩ : Record) :: l₂ := by
  unfold addNewProduct at h
  cases ha : tablesAppend "ITEM" ⟨defaultFieldValues p plu dept ts⟩ T.tables with
  | none =>
    rw [ha] at h
    simp at h
  | some tbs =>
    rw [ha] at h
    have hT' : T' = addItemInBand plu dept p.price ts ⟨tbs⟩ := (Option.some.inj h).symm
    obtain ⟨⟨l₁, l₂, hv1, hv2⟩, hother, hnames⟩ := tablesAppend_view ha
    obtain ⟨hbI, hbN⟩ := addItemInBand_item_view plu dept p.price ts ⟨tbs⟩
    subst hT'
    constructor
    · rw [hbN]
      exact hnames
    · refine ⟨l₁, l₂, hv1, ?_⟩
      rw [hbI]
      exact hv2

lemma procItem_tree_cases (xmlD : List ((Int × Int) × Product)) (ts : String)
    (T : XMLTree) (st : Stats) (e : (Int × Int) × Product) :
    (procItem xmlD ts (T, st) e).1.tables.map Table.name = T.tables.map Table.name ∧
    (itemRecords (procItem xmlD ts (T, st) e).1 = itemRecords T ∨
     (∃ l₁ l₂ r, itemRecords T = l₁ ++ r :: l₂ ∧
        (∀ x ∈ l₁, matchesKey e.1.1 e.1.2 x = false) ∧
        matchesKey e.1.1 e.1.2 r = true ∧
        itemRecords (procItem xmlD ts (T, st) e).1 = l₁ ++ (recUpdate e.2 ts r).1 :: l₂) ∨
     (∃ l₁ l₂, itemRecords T = l₁ ++ l₂ ∧
        itemRecords (procItem xmlD ts (T, st) e).1 =
          l₁ ++ (⟨defaultFieldValues e.2 e.1.1 e.1.2 ts⟩ : Record) :: l₂)) := by
  unfold procItem
  rcases Bool.eq_false_or_eq_true (dictHas xmlD e.1) with hh | hh
  · rw [if_pos hh]
    dsimp only
    obtain ⟨hn, hv⟩ := updateExistingProduct_view e.1.1 e.1.2 e.2 ts T
    refine ⟨hn, ?_⟩
    rcases hv with ⟨_, heq⟩ | ⟨l₁, l₂, r, h1, h2, h3, h4⟩
    · exact Or.inl (by rw [heq])
    · exact Or.inr (Or.inl ⟨l₁, l₂, r, h1, h2, h3, h4⟩)
  · rw [if_neg (by simp [hh])]
    cases ha : addNewProduct e.1.1 e.1.2 e.2 ts T with
    | none =>
      dsimp only
      exact ⟨rfl, Or.inl rfl⟩
    | some T' =>
      dsimp only
      obtain ⟨hn, l₁, l₂, h1, h2⟩ := addNewProduct_some_view ha
      exact ⟨hn, Or.inr (Or.inr ⟨l₁, l₂, h1, h2⟩)⟩

lemma procItem_stable (xmlD : List ((Int × Int) × Product)) (ts : String)
    (T : XMLTree) (st : Stats) (e : (Int × Int) × Product) (A : Int × Int)
    (hne : e.1 ≠ A) :
    (itemRecords (procItem xmlD ts (T, st) e).1).find? (matchesKey A.1 A.2) =
      (itemRecords T).find? (matchesKey A.1 A.2) ∧
    (memKey T A = true → memKey (procItem xmlD ts (T, st) e).1 A = true) ∧
    hasItemTable (procItem xmlD ts (T, st) e).1 = hasItemTable T := by
  obtain ⟨hn, hv⟩ := procItem_tree_cases xmlD ts T st e
  refine ⟨?_, ?_, hasItemTable_of_names hn⟩
  · rcases hv with heq | ⟨l₁, l₂, r, h1, h2, h3, h4⟩ | ⟨l₁, l₂, h1, h2⟩
    · rw [heq]
    · have hrA : matchesKey A.1 A.2 r = false := by
        rcases Bool.eq_false_or_eq_true (matchesKey A.1 A.2 r) with hb | hb
        · exact absurd (matchesKey_unique hb h3).symm hne
        · exact hb
      have hrA' : matchesKey A.1 A.2 (recUpdate e.2 ts r).1 = false := by
        rw [recUpdate_matchesKey]
        exact hrA
      rw [h1, h4]
      exact find?_replace_mid _ _ _ _ _ hrA' hrA
    · have hdA : matchesKey A.1 A.2
          (⟨defaultFieldValues e.2 e.1.1 e.1.2 ts⟩ : Record) = false := by
        rcases Bool.eq_false_or_eq_true (matchesKey A.1 A.2
            (⟨defaultFieldValues e.2 e.1.1 e.1.2 ts⟩ : Record)) with hb | hb
        · exact absurd (matchesKey_unique hb
            (default_matchesKey e.2 e.1.1 e.1.2 ts)).symm hne
        · exact hb
      rw [h1, h2]
      exact find?_insert_mid _ _ _ _ hdA
  · intro hm
    rcases hv with heq | ⟨l₁, l₂, r, h1, h2, h3, h4⟩ | ⟨l₁, l₂, h1, h2⟩
    · unfold memKey at hm ⊢
      rw [heq]
      exact hm
    · obtain ⟨x, hx, hpx⟩ := memKey_elim hm
      rw [h1] at hx
      rcases List.mem_append.mp hx with hx | hx
      · exact memKey_of_mem (by rw [h4]; exact List.mem_append.mpr (Or.inl hx)) hpx
      · rcases List.mem_cons.mp hx with hxr | hx
        · subst hxr
          exact memKey_of_mem
            (by rw [h4]; exact List.mem_append.mpr (Or.inr (List.mem_cons_self _ _)))
            (by rw [pred2_congr (recUpdate_extKey e.2 ts x)]; exact hpx)
        · exact memKey_of_mem
            (by rw [h4]; exact List.mem_append.mpr (Or.inr (List.mem_cons_of_mem _ hx))) hpx
    · obtain ⟨x, hx, hpx⟩ := memKey_elim hm
      rw [h1] at hx
      rcases List.mem_append.mp hx with hx | hx
      · exact memKey_of_mem (by rw [h2]; exact List.mem_append.mpr (Or.inl hx)) hpx
      · exact memKey_of_mem
          (by rw [h2]; exact List.mem_append.mpr (Or.inr (List.mem_cons_of_mem _ hx))) hpx

lemma procItem_establishes (xmlD : List ((Int × Int) × Product)) (ts : String)
    (T : XMLTree) (st : Stats) (e : (Int × Int) × Product)
    (htr1 : e.1.1 ≠ 0) (htr2 : e.1.2 ≠ 0)
    (hp1 : dictHas xmlD e.1 = true → memKey T e.1 = true)
    (hp2 : dictHas xmlD e.1 = false →
      (itemRecords T).find? (matchesKey e.1.1 e.1.2) = none) :
    (memKey (procItem xmlD ts (T, st) e).1 e.1 = true ∨
      hasItemTable (procItem xmlD ts (T, st) e).1 = false) ∧
    (∀ r, (itemRecords (procItem xmlD ts (T, st) e).1).find? (matchesKey e.1.1 e.1.2) =
        some r → agreeB e.2 r = true ∧ hasTS r = true) := by
  unfold procItem
  rcases Bool.eq_false_or_eq_true (dictHas xmlD e.1) with hh | hh
  · rw [if_pos hh]
    dsimp only
    have hmem := hp1 hh
    obtain ⟨hn, hv⟩ := updateExistingProduct_view e.1.1 e.1.2 e.2 ts T
    rcases hv with ⟨hfnone, heq⟩ | ⟨l₁, l₂, r, h1, h2, h3, h4⟩
    · rw [heq]
      refine ⟨Or.inl hmem, ?_⟩
      intro r hr
      rw [hfnone] at hr
      exact absurd hr (by simp)
    · constructor
      · apply Or.inl
        obtain ⟨x, hx, hpx⟩ := memKey_elim hmem
        rw [h1] at hx
        rcases List.mem_append.mp hx with hx | hx
        · exact memKey_of_mem (by rw [h4]; exact List.mem_append.mpr (Or.inl hx)) hpx
        · rcases List.mem_cons.mp hx with hxr | hx
          · subst hxr
            exact memKey_of_mem
              (by rw [h4]; exact List.mem_append.mpr (Or.inr (List.mem_cons_self _ _)))
              (by rw [pred2_congr (recUpdate_extKey e.2 ts x)]; exact hpx)
          · exact memKey_of_mem
              (by rw [h4]; exact List.mem_append.mpr (Or.inr (List.mem_cons_of_mem _ hx)))
              hpx
      · intro r' hr'
        rw [h4, find?_append_of_none (List.find?_eq_none.mpr
              (fun x hx => by simp [h2 x hx])),
          List.find?_cons_of_pos _ (by rw [recUpdate_matchesKey]; exact h3)] at hr'
        have hre : (recUpdate e.2 ts r).1 = r' := Option.some.inj hr'
        subst hre
        exact ⟨recUpdate_agree e.2 ts r, recUpdate_hasTS e.2 ts r⟩
  · rw [if_neg (by simp [hh])]
    have hfnone := hp2 hh
    cases ha : addNewProduct e.1.1 e.1.2 e.2 ts T with
    | none =>
      dsimp only
      refine ⟨Or.inr (addNewProduct_none_elim ha), ?_⟩
      intro r hr
      rw [hfnone] at hr
      exact absurd hr (by simp)
    | some T' =>
      dsimp only
      obtain ⟨hn, l₁, l₂, h1, h2⟩ := addNewProduct_some_view ha
      have hallfail : ∀ x ∈ l₁ ++ l₂, matchesKey e.1.1 e.1.2 x = false := by
        intro x hx
        have hnx := List.find?_eq_none.mp (by rw [← h1]; exact hfnone) x hx
        rcases Bool.eq_false_or_eq_true (matchesKey e.1.1 e.1.2 x) with hb | hb
        · exact absurd hb hnx
        · exact hb
      constructor
      · apply Or.inl
        refine memKey_of_mem (r := ⟨defaultFieldValues e.2 e.1.1 e.1.2 ts⟩)
          (by rw [h2]; exact List.mem_append.mpr (Or.inr (List.mem_cons_self _ _))) ?_
        unfold recTruthy
        rw [default_extKey]
        simp [htr1, htr2]
      · intro r' hr'
        rw [h2, find?_append_of_none (List.find?_eq_none.mpr
              (fun x hx => by simp [hallfail x (List.mem_append.mpr (Or.inl hx))])),
          List.find?_cons_of_pos _ (default_matchesKey e.2 e.1.1 e.1.2 ts)] at hr'
        have hre : (⟨defaultFieldValues e.2 e.1.1 e.1.2 ts⟩ : Record) = r' :=
          Option.some.inj hr'
        subst hre
        exact ⟨default_agree _ _ _ _, default_hasTS _ _ _ _⟩

lemma run1_fold_preserve (xmlD : List ((Int × Int) × Product)) (ts : String)
    (A : Int × Int) (p : Product) :
    ∀ (l : List ((Int × Int) × Product)) (T : XMLTree) (st : Stats),
      (∀ e ∈ l, e.1 ≠ A) →
      (memKey T A = true ∨ hasItemTable T = false) →
      (∀ r, (itemRecords T).find? (matchesKey A.1 A.2) = some r →
        agreeB p r = true ∧ hasTS r = true) →
      ((memKey (l.foldl (procItem xmlD ts) (T, st)).1 A = true ∨
          hasItemTable (l.foldl (procItem xmlD ts) (T, st)).1 = false) ∧
        (∀ r, (itemRecords (l.foldl (procItem xmlD ts) (T, st)).1).find?
            (matchesKey A.1 A.2) = some r → agreeB p r = true ∧ hasTS r = true)) := by
  intro l
  induction l with
  | nil =>
    intro T st _ h1 h2
    exact ⟨h1, h2⟩
  | cons e rest ih =>
    intro T st hne h1 h2
    rw [List.foldl_cons]
    obtain ⟨hf, hmk, hhit⟩ := procItem_stable xmlD ts T st e A (hne e (by simp))
    refine ih (procItem xmlD ts (T, st) e).1 (procItem xmlD ts (T, st) e).2
      (fun e' he' => hne e' (List.mem_cons_of_mem _ he')) ?_ ?_
    · rcases h1 with h1 | h1
      · exact Or.inl (hmk h1)
      · exact Or.inr (by rw [hhit]; exact h1)
    · intro r hr
      rw [hf] at hr
      exact h2 r hr

lemma run1_fold_post (xmlD : List ((Int × Int) × Product)) (ts : String) :
    ∀ (l : List ((Int × Int) × Product)) (T : XMLTree) (st : Stats),
      (l.map Prod.fst).Nodup →
      (∀ e ∈ l, e.1.1 ≠ 0 ∧ e.1.2 ≠ 0) →
      (∀ e ∈ l, (dictHas xmlD e.1 = true → memKey T e.1 = true) ∧
        (dictHas xmlD e.1 = false →
          (itemRecords T).find? (matchesKey e.1.1 e.1.2) = none)) →
      ∀ e ∈ l,
        (memKey (l.foldl (procItem xmlD ts) (T, st)).1 e.1 = true ∨
          hasItemTable (l.foldl (procItem xmlD ts) (T, st)).1 = false) ∧
        (∀ r, (itemRecords (l.foldl (procItem xmlD ts) (T, st)).1).find?
            (matchesKey e.1.1 e.1.2) = some r →
          agreeB e.2 r = true ∧ hasTS r = true) := by
  intro l
  induction l with
  | nil =>
    intro T st _ _ _ e he
    exact absurd he (by simp)
  | cons e0 rest ih =>
    intro T st hnd htr hpre e he
    rw [List.foldl_cons]
    have hnd' : e0.1 ∉ rest.map Prod.fst ∧ (rest.map Prod.fst).Nodup := by
      simp only [List.map_cons, List.nodup_cons] at hnd
      exact hnd
    have hne0 : ∀ e' ∈ rest, e'.1 ≠ e0.1 := by
      intro e' he' hc
      exact hnd'.1 (hc ▸ List.mem_map_of_mem Prod.fst he')
    rcases List.mem_cons.mp he with hee | he'
    · subst hee
      obtain ⟨hest1, hest2⟩ := procItem_establishes xmlD ts T st e
        (htr e (by simp)).1 (htr e (by simp)).2
        (hpre e (by simp)).1 (hpre e (by simp)).2
      exact run1_fold_preserve xmlD ts e.1 e.2 rest
        (procItem xmlD ts (T, st) e).1 (procItem xmlD ts (T, st) e).2
        (fun e' he' => hne0 e' he') hest1 hest2
    · have hpre' : ∀ e' ∈ rest,
          (dictHas xmlD e'.1 = true →
            memKey (procItem xmlD ts (T, st) e0).1 e'.1 = true) ∧
          (dictHas xmlD e'.1 = false →
            (itemRecords (procItem xmlD ts (T, st) e0).1).find?
              (matchesKey e'.1.1 e'.1.2) = none) := by
        intro e' he'2
        obtain ⟨hf, hmk, _⟩ := procItem_stable xmlD ts T st e0 e'.1 (hne0 e' he'2).symm
        exact ⟨fun hd => hmk ((hpre e' (List.mem_cons_of_mem _ he'2)).1 hd),
          fun hd => by
            rw [hf]
            exact (hpre e' (List.mem_cons_of_mem _ he'2)).2 hd⟩
      exact ih (procItem xmlD ts (T, st) e0).1 (procItem xmlD ts (T, st) e0).2
        hnd'.2 (fun e' he'2 => htr e' (List.mem_cons_of_mem _ he'2)) hpre' e he'

lemma procItem_noop {xmlD : List ((Int × Int) × Product)} {ts : String} {T : XMLTree}
    {st : Stats} {e : (Int × Int) × Product}
    (hkey : dictHas xmlD e.1 = true ∨ hasItemTable T = false)
    (hgood : ∀ r, (itemRecords T).find? (matchesKey e.1.1 e.1.2) = some r →
      agreeB e.2 r = true ∧ hasTS r = true) :
    (procItem xmlD ts (T, st) e).1 = T ∧
    (procItem xmlD ts (T, st) e).2.added = st.added ∧
    (procItem xmlD ts (T, st) e).2.updated = st.updated := by
  unfold procItem
  rcases Bool.eq_false_or_eq_true (dictHas xmlD e.1) with hh | hh
  · rw [if_pos hh]
    dsimp only
    rw [updateExistingProduct_noop hgood]
    dsimp only
    rw [if_neg (by simp)]
    exact ⟨rfl, rfl, rfl⟩
  · rcases hkey with hk | hk
    · rw [hk] at hh
      exact absurd hh (by simp)
    · rw [if_neg (by simp [hh])]
      have haddnone : addNewProduct e.1.1 e.1.2 e.2 ts T = none := by
        unfold addNewProduct
        have hnone : tablesAppend "ITEM"
            (⟨defaultFieldValues e.2 e.1.1 e.1.2 ts⟩ : Record) T.tables = none := by
          rw [tablesAppend_none_iff]
          intro t htm hceq
          unfold hasItemTable at hk
          have hany : T.tables.any (fun x => x.name == "ITEM") = true :=
            List.any_eq_true.mpr ⟨t, htm, by simp [hceq]⟩
          rw [hany] at hk
          exact absurd hk (by simp)
        rw [hnone]
      rw [haddnone]
      exact ⟨rfl, rfl, rfl⟩

lemma run2_fold (xmlD : List ((Int × Int) × Product)) (ts : String) :
    ∀ (l : List ((Int × Int) × Product)) (T : XMLTree) (st : Stats),
      (∀ e ∈ l, (dictHas xmlD e.1 = true ∨ hasItemTable T = false) ∧
        (∀ r, (itemRecords T).find? (matchesKey e.1.1 e.1.2) = some r →
          agreeB e.2 r = true ∧ hasTS r = true)) →
      (l.foldl (procItem xmlD ts) (T, st)).1 = T ∧
      (l.foldl (procItem xmlD ts) (T, st)).2.added = st.added ∧
      (l.foldl (procItem xmlD ts) (T, st)).2.updated = st.updated := by
  intro l
  induction l with
  | nil =>
    intro T st _
    exact ⟨rfl, rfl, rfl⟩
  | cons e rest ih =>
    intro T st h
    rw [List.foldl_cons]
    obtain ⟨hk, hg⟩ := h e (by simp)
    obtain ⟨h1, h2, h3⟩ := procItem_noop hk hg
    have hacc : procItem xmlD ts (T, st) e = (T, (procItem xmlD ts (T, st) e).2) :=
      Prod.ext h1 rfl
    rw [hacc]
    obtain ⟨r1, r2, r3⟩ := ih T (procItem xmlD ts (T, st) e).2
      (fun e' he' => h e' (List.mem_cons_of_mem _ he'))
    refine ⟨r1, ?_, ?_⟩
    · rw [r2, h2]
    · rw [r3, h3]

/-- C1: running `sync` a second time with the unchanged CSV against the
tree produced by the first run yields `added = 0` and `updated = 0`, and
in fact leaves the tree entirely unchanged — every record the second run
matches already agrees on all mapped columns and already carries `_TS`,
so not even a `_TS` backfill happens (the backfill never counts as
`updated` in any case). -/
theorem claim_C1_idempotent (csv : List Product) (t0 : XMLTree) (ts0 ts1 ts2 ts3 : String) :
    (sync csv (extractProducts (sync csv (extractProducts t0 ts0) t0 ts1).1 ts2)
        (sync csv (extractProducts t0 ts0) t0 ts1).1 ts3).2.added = 0 ∧
    (sync csv (extractProducts (sync csv (extractProducts t0 ts0) t0 ts1).1 ts2)
        (sync csv (extractProducts t0 ts0) t0 ts1).1 ts3).2.updated = 0 ∧
    (sync csv (extractProducts (sync csv (extractProducts t0 ts0) t0 ts1).1 ts2)
        (sync csv (extractProducts t0 ts0) t0 ts1).1 ts3).1 =
      (sync csv (extractProducts t0 ts0) t0 ts1).1 := by
  have hD := buildDict_nodup csv
  have htr := @buildDict_entry_truthy csv
  have hpre : ∀ e ∈ buildDict csv,
      (dictHas (buildDict (extractProducts t0 ts0)) e.1 = true → memKey t0 e.1 = true) ∧
      (dictHas (buildDict (extractProducts t0 ts0)) e.1 = false →
        (itemRecords t0).find? (matchesKey e.1.1 e.1.2) = none) := by
    intro e he
    constructor
    · intro hd
      rw [← dictHas_buildDict_extract t0 ts0 e.1]
      exact hd
    · intro hd
      cases hfind : (itemRecords t0).find? (matchesKey e.1.1 e.1.2) with
      | none => rfl
      | some r =>
        exfalso
        have hrm : r ∈ itemRecords t0 := List.mem_of_find?_eq_some hfind
        have hmk := List.find?_some hfind
        have hmem : memKey t0 e.1 = true :=
          memKey_of_mem hrm (matchesKey_recTruthy (htr e he).1 (htr e he).2 hmk)
        rw [← dictHas_buildDict_extract t0 ts0 e.1] at hmem
        rw [hmem] at hd
        exact absurd hd (by simp)
  have hpost := run1_fold_post (buildDict (extractProducts t0 ts0)) ts1 (buildDict csv)
    t0 (processDeletions (buildDict csv) (buildDict (extractProducts t0 ts0)) Stats.zero)
    hD htr hpre
  have hyp : ∀ e ∈ buildDict csv,
      (dictHas (buildDict (extractProducts
          (sync csv (extractProducts t0 ts0) t0 ts1).1 ts2)) e.1 = true ∨
        hasItemTable (sync csv (extractProducts t0 ts0) t0 ts1).1 = false) ∧
      (∀ r, (itemRecords (sync csv (extractProducts t0 ts0) t0 ts1).1).find?
          (matchesKey e.1.1 e.1.2) = some r →
        agreeB e.2 r = true ∧ hasTS r = true) := by
    intro e he
    obtain ⟨hm, hg⟩ := hpost e he
    refine ⟨?_, hg⟩
    rcases hm with hm | hm
    · apply Or.inl
      rw [dictHas_buildDict_extract]
      exact hm
    · exact Or.inr hm
  obtain ⟨hT2, hadd, hupd⟩ := run2_fold
    (buildDict (extractProducts (sync csv (extractProducts t0 ts0) t0 ts1).1 ts2)) ts3
    (buildDict csv) (sync csv (extractProducts t0 ts0) t0 ts1).1
    (processDeletions (buildDict csv)
      (buildDict (extractProducts (sync csv (extractProducts t0 ts0) t0 ts1).1 ts2))
      Stats.zero) hyp
  have hdel := processDeletions_fields (buildDict csv)
    (buildDict (extractProducts (sync csv (extractProducts t0 ts0) t0 ts1).1 ts2))
    Stats.zero
  exact ⟨hadd.trans hdel.2.1, hupd.trans hdel.2.2.1, hT2⟩


end Converter
